import Mathlib

/-!
# noip: a dynamic-DNS updater (`main.go`)

A shallow embedding of `main.go` and of the Go standard-library functions it
calls, followed by theorems about the interface resolver (`IPv4`), the
update-URL builder, the Basic-Auth header and the runner (`main`).

Conventions of the embedding:

* A Go `string` is a byte sequence and is embedded as a list of bytes; the
  escaping functions of `net/url` work byte by byte.
* Go's `(value, error)` results are `Except` values; `IPv4` keeps both
  components of its result, since it returns `""` together with an error.
* The pure library functions the program relies on (`net.IP.To4`,
  `net.IP.String`, `url.Parse`, `url.Values`, `url.QueryEscape`,
  `(*url.URL).String`, `http.NewRequest`, `(*http.Request).SetBasicAuth`,
  `base64.StdEncoding`) are transcribed from the Go standard library.
  `parseQuery` is the one of Go 1.17 and later, which splits at `&` only.
* What depends on the machine or the network is a parameter: the file
  system, the JSON decoder, the interface table and the HTTP exchange
  (`World`, `NetEnv`). One call of `http.DefaultClient.Do` is one effect of
  a run; the requests the client sends within such a call are those of its
  loop of redirects (`Client.Do`, transcribed from `net/http`) over what
  answers each request sent (`Client`).
* The verb `%q` (`strconv.Quote`) is a parameter of the functions that
  render an error or a log line as text.
* `IPv4` also reports how many iterations of its loop ran, and `main`
  reports the effects of the run in order; neither changes what is
  computed.
-/

namespace Noip

/-! ## Bytes and Go strings -/

deriving instance DecidableEq for Except

/-- A Go `byte`. -/
abbrev Byte := Fin 256

/-- A Go `string` (equally a `[]byte`): a finite sequence of bytes. -/
abbrev GoString := List Byte

/-- Conversion of an integer to a Go `byte` (truncation to 8 bits). -/
def byte (n : Nat) : Byte := ⟨n % 256, Nat.mod_lt n (by decide)⟩

/-- UTF-8 encoding of one code point, as Go source literals are encoded. -/
def encodeRune (c : Char) : GoString :=
  let n := c.toNat
  if n < 0x80 then [byte n]
  else if n < 0x800 then [byte (0xC0 + n / 64), byte (0x80 + n % 64)]
  else if n < 0x10000 then
    [byte (0xE0 + n / 4096), byte (0x80 + n / 64 % 64), byte (0x80 + n % 64)]
  else
    [byte (0xF0 + n / 262144), byte (0x80 + n / 4096 % 64), byte (0x80 + n / 64 % 64),
      byte (0x80 + n % 64)]

/-- A Go string literal: the UTF-8 bytes of the text. -/
def str (s : String) : GoString := s.toList.flatMap encodeRune

/-- The table `"0123456789abcdef"` of package `net` (`hexDigit`). -/
def hexDigit (n : Nat) : Byte :=
  if n % 16 < 10 then byte (48 + n % 16) else byte (87 + n % 16)

/-- The table `"0123456789ABCDEF"` of package `net/url` (`upperhex`). -/
def upperhex (n : Nat) : Byte :=
  if n % 16 < 10 then byte (48 + n % 16) else byte (55 + n % 16)

/-! ## Package `net`: IP addresses -/

/-- A `net.IP`: a byte slice, 4 bytes long for IPv4 and 16 for IPv6
(other lengths, `nil` included, are possible values of the type). -/
abbrev IP := List Byte

/-- `isZeros` of package `net`. -/
def isZeros (p : List Byte) : Bool := p.all (fun b => b == 0)

/-- `net.IP.To4`: a 4-byte slice is returned as it is, a 16-byte slice whose
first ten bytes are zero and whose next two are `0xff` gives its last four
bytes, anything else gives `nil` (`none`). -/
def IP.To4 (ip : IP) : Option IP :=
  if ip.length = 4 then some ip
  else if ip.length = 16 ∧ isZeros (ip.take 10) ∧ ip.getD 10 0 = 0xff ∧
      ip.getD 11 0 = 0xff then
    some (ip.drop 12)
  else none

/-- `ubtoa` of package `net`: the decimal digits of a byte. -/
def ubtoa (v : Byte) : GoString :=
  if v.val < 10 then [byte (v.val + 48)]
  else if v.val < 100 then [byte (v.val / 10 + 48), byte (v.val % 10 + 48)]
  else [byte (v.val / 100 + 48), byte (v.val / 10 % 10 + 48), byte (v.val % 10 + 48)]

/-- Dotted-decimal notation of a 4-byte address. -/
def dotted (p4 : IP) : GoString :=
  ubtoa (p4.getD 0 0) ++ str "." ++ ubtoa (p4.getD 1 0) ++ str "." ++
    ubtoa (p4.getD 2 0) ++ str "." ++ ubtoa (p4.getD 3 0)

/-- `hexString` of package `net`: two lower-case hex digits per byte. -/
def hexString (b : List Byte) : GoString :=
  b.flatMap (fun x => [hexDigit (x.val / 16), hexDigit x.val])

/-- `appendHex` of package `net`: a 16-bit group in lower-case hex without
leading zeros. -/
def appendHex (i : Nat) : GoString :=
  if i = 0 then str "0"
  else (List.range 8).reverse.flatMap (fun j =>
    let v := i / 16 ^ j
    if v > 0 then [hexDigit v] else [])

/-- Inner loop of the zero-run search in `IP.String`: advance `j` over
16-bit groups that are zero. -/
def zeroRunEnd (p : IP) : Nat → Nat → Nat
  | 0, j => j
  | f + 1, j =>
    if j < 16 ∧ p.getD j 0 = 0 ∧ p.getD (j + 1) 0 = 0 then zeroRunEnd p f (j + 2) else j

/-- Outer loop of the zero-run search in `IP.String`; `(e0, e1)` starts at
`(-1, -1)` and ends as the first longest run of zero groups. -/
def longestZeroRun (p : IP) : Nat → Nat → Int × Int → Int × Int
  | 0, _, e => e
  | f + 1, i, (e0, e1) =>
    if i < 16 then
      let j := zeroRunEnd p 8 i
      if j > i ∧ (j : Int) - (i : Int) > e1 - e0 then longestZeroRun p f (j + 2) (i, j)
      else longestZeroRun p f (i + 2) (e0, e1)
    else (e0, e1)

/-- Printing loop of `IP.String` for a 16-byte address, with `::` in place
of the run `[e0, e1)`. -/
def printGroups (p : IP) (e0 e1 : Int) : Nat → Nat → GoString
  | 0, _ => []
  | f + 1, i =>
    if i < 16 then
      if (i : Int) = e0 then
        let i1 := e1.toNat
        if i1 ≥ 16 then str "::"
        else str "::" ++ appendHex ((p.getD i1 0).val * 256 + (p.getD (i1 + 1) 0).val) ++
          printGroups p e0 e1 f (i1 + 2)
      else
        (if i > 0 then str ":" else []) ++
          appendHex ((p.getD i 0).val * 256 + (p.getD (i + 1) 0).val) ++
          printGroups p e0 e1 f (i + 2)
    else []

/-- `net.IP.String`: `"<nil>"` for an empty slice, `"?"` and the hex bytes
for a slice of a wrong length, dotted decimal when `To4` succeeds, and the
RFC 5952 text form otherwise. -/
def IP.String (ip : IP) : GoString :=
  if ip.length = 0 then str "<nil>"
  else if ip.length ≠ 4 ∧ ip.length ≠ 16 then str "?" ++ hexString ip
  else
    match IP.To4 ip with
    | some p4 => dotted p4
    | none =>
      let e := longestZeroRun ip 8 0 (-1, -1)
      let e := if e.2 - e.1 ≤ 2 then ((-1 : Int), (-1 : Int)) else e
      printGroups ip e.1 e.2 8 0

/-! ## Package `net`: interfaces and their addresses -/

/-- An error value made outside `main.go`: one handed back by the operating
system or by a decoder (`os`, with its text), an `errors.New` or
`fmt.Errorf` value of a library (`text`, or `invalidPort` and
`invalidMethod` for the two made with `%q`), a `url.EscapeError`, a
`url.InvalidHostError`, a `*url.Error` wrapping another error, or the
error `(*Client).do` makes of a `Location` header that does not parse. -/
inductive LibError where
  | os (msg : GoString)
  | text (msg : GoString)
  | escapeError (s : GoString)
  | invalidHostError (s : GoString)
  | invalidPort (port : GoString)
  | invalidMethod (method : GoString)
  | urlError (op : GoString) (url : GoString) (inner : LibError)
  | locationError (loc : GoString) (inner : LibError)
deriving DecidableEq, Repr

/-- The text of a library error (`err.Error()`); `quote` is
`strconv.Quote`, the formatter behind the verb `%q`. -/
def LibError.message (quote : GoString → GoString) : LibError → GoString
  | .os msg => msg
  | .text msg => msg
  | .escapeError s => str "invalid URL escape " ++ quote s
  | .invalidHostError s => str "invalid character " ++ quote s ++ str " in host name"
  | .invalidPort port => str "invalid port " ++ quote port ++ str " after host"
  | .invalidMethod method => str "net/http: invalid method " ++ quote method
  | .urlError op url inner =>
    op ++ str " " ++ quote url ++ str ": " ++ LibError.message quote inner
  | .locationError loc inner =>
    str "failed to parse Location header " ++ quote loc ++ str ": " ++
      LibError.message quote inner

/-- A `net.Interface`. -/
structure Interface where
  index : Nat
  mtu : Nat
  name : GoString
  hardwareAddr : List Byte
  flags : Nat
deriving DecidableEq, Repr

/-- A `net.Addr`: the program distinguishes `*net.IPNet` from every other
implementation of the interface (`*net.IPAddr`, ...). -/
inductive Addr where
  | ipNet (ip : IP) (mask : List Byte)
  | other (network : GoString) (text : GoString)
deriving DecidableEq, Repr

/-- An `error` value seen by the program: one handed back by a call, or the
one `IPv4` makes with `fmt.Errorf("no IPv4 found for interface: %q", name)`. -/
inductive Error where
  | lib (e : LibError)
  | noIPv4Found (name : GoString)
deriving DecidableEq, Repr

/-- The text of an error (`err.Error()`); `quote` is `strconv.Quote`, the
formatter behind the verb `%q`. -/
def Error.message (quote : GoString → GoString) : Error → GoString
  | .lib e => e.message quote
  | .noIPv4Found name => str "no IPv4 found for interface: " ++ quote name

/-- The interface table of the operating system, as `net.InterfaceByName`
and `(*net.Interface).Addrs` report it. -/
structure NetEnv where
  interfaceByName : GoString → Except LibError Interface
  addrs : Interface → Except LibError (List Addr)

/-! ## `IPv4` (main.go, lines 102-124) -/

/-- The test of the loop body: `a` is a `*net.IPNet` and `ipn.IP.To4()` is
not `nil`. -/
def qualifies : Addr → Bool
  | .ipNet ip _ => (IP.To4 ip).isSome
  | .other _ _ => false

/-- The `for _, a := range addrs` loop of `IPv4`. The first component is the
string returned from inside the loop, if any; the second counts the
iterations executed, starting from `n`. -/
def scanAddrs : List Addr → Nat → Option GoString × Nat
  | [], n => (none, n)
  | .ipNet ip _ :: rest, n =>
    if (IP.To4 ip).isSome then (some (IP.String ip), n + 1) else scanAddrs rest (n + 1)
  | .other _ _ :: rest, n => scanAddrs rest (n + 1)

/-- What a call of `IPv4` gives: the returned string, the returned error
(`none` for `nil`), and the number of loop iterations it executed. -/
structure IPv4Result where
  ip : GoString
  err : Option Error
  iterations : Nat
deriving DecidableEq, Repr

/-- `IPv4(name)`. -/
def IPv4 (env : NetEnv) (name : GoString) : IPv4Result :=
  match env.interfaceByName name with
  | .error e => ⟨[], some (.lib e), 0⟩
  | .ok i =>
    match env.addrs i with
    | .error e => ⟨[], some (.lib e), 0⟩
    | .ok addrs =>
      match scanAddrs addrs 0 with
      | (some s, n) => ⟨s, none, n⟩
      | (none, n) => ⟨[], some (.noIPv4Found name), n⟩

/-! ## Package `net/url`: escaping -/

/-- The byte of an ASCII character. -/
def ch (c : Char) : Byte := byte c.toNat

/-- The `encoding` modes of package `net/url`. -/
inductive Encoding where
  | encodePath
  | encodePathSegment
  | encodeHost
  | encodeZone
  | encodeUserPassword
  | encodeQueryComponent
  | encodeFragment
deriving DecidableEq, Repr

/-- ASCII letters and digits. -/
def isAlnum (c : Byte) : Bool :=
  (97 ≤ c.val && c.val ≤ 122) || (65 ≤ c.val && c.val ≤ 90) || (48 ≤ c.val && c.val ≤ 57)

/-- `shouldEscape` of package `net/url`. -/
def shouldEscape (c : Byte) (mode : Encoding) : Bool :=
  if isAlnum c then false
  else if (mode = .encodeHost ∨ mode = .encodeZone) ∧ c ∈ str "!$&'()*+,;=:[]<>\"" then false
  else if c ∈ str "-_.~" then false
  else if c ∈ str "$&+,/:;=?@" then
    match mode with
    | .encodePath => c == ch '?'
    | .encodePathSegment => c == ch '/' || c == ch ';' || c == ch ',' || c == ch '?'
    | .encodeUserPassword => c == ch '@' || c == ch '/' || c == ch '?' || c == ch ':'
    | .encodeQueryComponent => true
    | .encodeFragment => false
    | _ => true
  else if mode = .encodeFragment ∧ c ∈ str "!()*" then false
  else true

/-- The output of the main loop of `escape` for one byte. -/
def escapeByte (mode : Encoding) (c : Byte) : GoString :=
  if c = ch ' ' ∧ mode = .encodeQueryComponent then [ch '+']
  else if shouldEscape c mode then [ch '%', upperhex (c.val / 16), upperhex (c.val % 16)]
  else [c]

/-- `escape` of package `net/url`: the counting pass, the early return of
`s` itself, the spaces-only pass, and the main loop. -/
def escape (s : GoString) (mode : Encoding) : GoString :=
  let spaceCount :=
    s.countP (fun c => shouldEscape c mode && (c == ch ' ' && mode == .encodeQueryComponent))
  let hexCount :=
    s.countP (fun c => shouldEscape c mode && !(c == ch ' ' && mode == .encodeQueryComponent))
  if spaceCount = 0 ∧ hexCount = 0 then s
  else if hexCount = 0 then s.map (fun c => if c = ch ' ' then ch '+' else c)
  else s.flatMap (escapeByte mode)

/-- `url.QueryEscape`. -/
def QueryEscape (s : GoString) : GoString := escape s .encodeQueryComponent

/-- `ishex` of package `net/url`. -/
def ishex (c : Byte) : Bool :=
  (48 ≤ c.val && c.val ≤ 57) || (97 ≤ c.val && c.val ≤ 102) || (65 ≤ c.val && c.val ≤ 70)

/-- `unhex` of package `net/url`. -/
def unhex (c : Byte) : Nat :=
  if 48 ≤ c.val ∧ c.val ≤ 57 then c.val - 48
  else if 97 ≤ c.val ∧ c.val ≤ 102 then c.val - 97 + 10
  else if 65 ≤ c.val ∧ c.val ≤ 70 then c.val - 65 + 10
  else 0

/-- The first pass of `unescape`: it checks every `%` escape and tells
whether there is anything to decode (`n`, the number of escapes, and
`hasPlus`). -/
def unescapeCheck (mode : Encoding) : GoString → Nat → Bool → Except LibError (Nat × Bool)
  | [], n, hasPlus => .ok (n, hasPlus)
  | c :: rest, n, hasPlus =>
    if c = ch '%' then
      match rest with
      | a :: b :: rest2 =>
        if !ishex a || !ishex b then .error (.escapeError [c, a, b])
        else if mode = .encodeHost ∧ unhex a < 8 ∧ [c, a, b] ≠ str "%25" then
          .error (.escapeError [c, a, b])
        else if mode = .encodeZone ∧ [c, a, b] ≠ str "%25" ∧
            byte (unhex a * 16 + unhex b) ≠ ch ' ' ∧
            shouldEscape (byte (unhex a * 16 + unhex b)) .encodeHost then
          .error (.escapeError [c, a, b])
        else unescapeCheck mode rest2 (n + 1) hasPlus
      | _ => .error (.escapeError (c :: rest))
    else if c = ch '+' then unescapeCheck mode rest n (mode == .encodeQueryComponent)
    else if (mode = .encodeHost ∨ mode = .encodeZone) ∧ c.val < 0x80 ∧
        shouldEscape c .encodeHost then
      .error (.invalidHostError [c])
    else unescapeCheck mode rest n hasPlus

/-- The second pass of `unescape`: it decodes `%XX` and, in a query
component, `+`. -/
def unescapeLoop (mode : Encoding) : GoString → GoString
  | [] => []
  | c :: rest =>
    if c = ch '%' then
      match rest with
      | a :: b :: rest2 => byte (unhex a * 16 + unhex b) :: unescapeLoop mode rest2
      | _ => []
    else if c = ch '+' then
      (if mode = .encodeQueryComponent then ch ' ' else ch '+') :: unescapeLoop mode rest
    else c :: unescapeLoop mode rest

/-- `unescape` of package `net/url`. -/
def unescape (s : GoString) (mode : Encoding) : Except LibError GoString :=
  match unescapeCheck mode s 0 false with
  | .error e => .error e
  | .ok (n, hasPlus) => if n = 0 ∧ hasPlus = false then .ok s else .ok (unescapeLoop mode s)

/-- `url.QueryUnescape`. -/
def QueryUnescape (s : GoString) : Except LibError GoString := unescape s .encodeQueryComponent

/-! ## Package `net/url`: query values -/

/-- A `url.Values` (equally an `http.Header`): a `map[string][]string`, kept
as a list of bindings with distinct keys. -/
abbrev Values := List (GoString × List GoString)

/-- The map read `v[key]`: the slice bound to `key`, `nil` when absent. -/
def Values.get (v : Values) (key : GoString) : List GoString :=
  match v with
  | [] => []
  | (k, vs) :: rest => if k = key then vs else Values.get rest key

/-- The map write `v[key] = vs`. -/
def Values.put (v : Values) (key : GoString) (vs : List GoString) : Values :=
  match v with
  | [] => [(key, vs)]
  | (k, old) :: rest => if k = key then (k, vs) :: rest else (k, old) :: Values.put rest key vs

/-- `Values.Get`: the first value bound to `key`, or `""`. -/
def Values.Get (v : Values) (key : GoString) : GoString :=
  match Values.get v key with
  | [] => []
  | x :: _ => x

/-- `Values.Set`: `v[key] = []string{value}`. -/
def Values.Set (v : Values) (key value : GoString) : Values := Values.put v key [value]

/-- The order `<` of Go strings: bytewise lexicographic. -/
def strLess : GoString → GoString → Bool
  | [], [] => false
  | [], _ :: _ => true
  | _ :: _, [] => false
  | a :: as, b :: bs => a.val < b.val || (a == b && strLess as bs)

/-- Insertion into a sorted list of strings. -/
def insertSorted (k : GoString) : List GoString → List GoString
  | [] => [k]
  | x :: xs => if strLess x k then x :: insertSorted k xs else k :: x :: xs

/-- `sort.Strings`. -/
def sortStrings : List GoString → List GoString
  | [] => []
  | k :: ks => insertSorted k (sortStrings ks)

/-- `Values.Encode`: the keys in sorted order, each value as
`key=value` with both sides query-escaped, joined by `&`. -/
def Values.Encode (v : Values) : GoString :=
  (sortStrings (v.map Prod.fst)).foldl (fun buf k =>
    (Values.get v k).foldl (fun buf val =>
      (if buf.length > 0 then buf ++ [ch '&'] else buf) ++ QueryEscape k ++ [ch '='] ++
        QueryEscape val) buf) []

/-- `strings.Cut` with a one-byte separator: the text before the first
separator, the text after it, and whether there is one. -/
def cut (sep : Byte) : GoString → GoString × GoString × Bool
  | [] => ([], [], false)
  | c :: rest =>
    if c = sep then ([], rest, true)
    else
      let r := cut sep rest
      (c :: r.1, r.2.1, r.2.2)

/-- The loop of `parseQuery`; `fuel` bounds the number of iterations, and
each iteration shortens `query`. -/
def parseQueryLoop : Nat → Values → Option LibError → GoString → Values × Option LibError
  | 0, m, err, _ => (m, err)
  | fuel + 1, m, err, query =>
    if query = [] then (m, err)
    else
      let c := cut (ch '&') query
      let key := c.1
      let query := c.2.1
      if ch ';' ∈ key then
        parseQueryLoop fuel m (some (.text (str "invalid semicolon separator in query"))) query
      else if key = [] then parseQueryLoop fuel m err query
      else
        let kv := cut (ch '=') key
        match QueryUnescape kv.1 with
        | .error e1 => parseQueryLoop fuel m (if err = none then some e1 else err) query
        | .ok key =>
          match QueryUnescape kv.2.1 with
          | .error e1 => parseQueryLoop fuel m (if err = none then some e1 else err) query
          | .ok value =>
            parseQueryLoop fuel (Values.put m key (Values.get m key ++ [value])) err query

/-- `url.ParseQuery`. -/
def ParseQuery (query : GoString) : Values × Option LibError :=
  parseQueryLoop query.length [] none query

/-! ## Package `net/url`: URLs -/

/-- A `url.Userinfo`. -/
structure Userinfo where
  username : GoString
  password : GoString
  passwordSet : Bool
deriving DecidableEq, Repr

/-- A `url.URL`. -/
structure URL where
  Scheme : GoString
  Opaque : GoString
  User : Option Userinfo
  Host : GoString
  Path : GoString
  RawPath : GoString
  OmitHost : Bool
  ForceQuery : Bool
  RawQuery : GoString
  Fragment : GoString
  RawFragment : GoString
deriving DecidableEq, Repr

/-- The zero value of `url.URL` (`new(URL)`). -/
def URL.zero : URL := ⟨[], [], none, [], [], [], false, false, [], [], []⟩

/-- `stringContainsCTLByte` of package `net/url`. -/
def stringContainsCTLByte (s : GoString) : Bool := s.any (fun b => b.val < 32 || b.val == 0x7f)

/-- The loop of `getScheme`, at index `i` with `rest` still to read. -/
def getSchemeLoop (rawURL : GoString) : GoString → Nat → Except LibError (GoString × GoString)
  | [], _ => .ok ([], rawURL)
  | c :: rest, i =>
    if (97 ≤ c.val ∧ c.val ≤ 122) ∨ (65 ≤ c.val ∧ c.val ≤ 90) then
      getSchemeLoop rawURL rest (i + 1)
    else if (48 ≤ c.val ∧ c.val ≤ 57) ∨ c = ch '+' ∨ c = ch '-' ∨ c = ch '.' then
      if i = 0 then .ok ([], rawURL) else getSchemeLoop rawURL rest (i + 1)
    else if c = ch ':' then
      if i = 0 then .error (.text (str "missing protocol scheme")) else .ok (rawURL.take i, rest)
    else .ok ([], rawURL)

/-- `getScheme` of package `net/url`: the scheme and the rest of the URL. -/
def getScheme (rawURL : GoString) : Except LibError (GoString × GoString) :=
  getSchemeLoop rawURL rawURL 0

/-- `strings.ToLower` on ASCII text (a scheme holds ASCII only). -/
def toLower (s : GoString) : GoString :=
  s.map (fun c => if 65 ≤ c.val ∧ c.val ≤ 90 then byte (c.val + 32) else c)

/-- `strings.HasPrefix`. -/
def hasPrefixStr (s p : GoString) : Bool := p.isPrefixOf s

/-- `strings.HasSuffix`. -/
def hasSuffixStr (s p : GoString) : Bool := p.isSuffixOf s

/-- `strings.LastIndex` with a one-byte argument; `none` stands for `-1`. -/
def lastIndexByte (sep : Byte) (s : GoString) : Option Nat :=
  match (s.reverse).indexOf? sep with
  | none => none
  | some k => some (s.length - 1 - k)

/-- `strings.Index`; `none` stands for `-1`. -/
def indexStr (s sub : GoString) : Option Nat :=
  (List.range (s.length + 1)).find? (fun i => sub.isPrefixOf (s.drop i))

/-- `validOptionalPort` of package `net/url`. -/
def validOptionalPort (port : GoString) : Bool :=
  match port with
  | [] => true
  | c :: rest => c == ch ':' && rest.all (fun b => 48 ≤ b.val && b.val ≤ 57)

/-- `validUserinfo` of package `net/url`. -/
def validUserinfo (s : GoString) : Bool :=
  s.all (fun r => isAlnum r || r ∈ str "-._:~!$&'()*+,;=%@")

/-- `parseHost` of package `net/url`. -/
def parseHost (host : GoString) : Except LibError GoString :=
  let plain : Except LibError GoString := unescape host .encodeHost
  if hasPrefixStr host (str "[") then
    match lastIndexByte (ch ']') host with
    | none => .error (.text (str "missing ']' in host"))
    | some i =>
      let colonPort := host.drop (i + 1)
      if !validOptionalPort colonPort then
        .error (.invalidPort colonPort)
      else
        match indexStr (host.take i) (str "%25") with
        | some zone =>
          match unescape (host.take zone) .encodeHost with
          | .error e => .error e
          | .ok host1 =>
            match unescape ((host.take i).drop zone) .encodeZone with
            | .error e => .error e
            | .ok host2 =>
              match unescape (host.drop i) .encodeHost with
              | .error e => .error e
              | .ok host3 => .ok (host1 ++ host2 ++ host3)
        | none => plain
  else
    match lastIndexByte (ch ':') host with
    | some i =>
      let colonPort := host.drop i
      if !validOptionalPort colonPort then
        .error (.invalidPort colonPort)
      else plain
    | none => plain

/-- `parseAuthority` of package `net/url`: the user information and the
host of `user:password@host:port`. -/
def parseAuthority (authority : GoString) : Except LibError (Option Userinfo × GoString) :=
  match lastIndexByte (ch '@') authority with
  | none =>
    match parseHost authority with
    | .error e => .error e
    | .ok host => .ok (none, host)
  | some i =>
    match parseHost (authority.drop (i + 1)) with
    | .error e => .error e
    | .ok host =>
      let userinfo := authority.take i
      if !validUserinfo userinfo then .error (.text (str "net/url: invalid userinfo"))
      else if ch ':' ∉ userinfo then
        match unescape userinfo .encodeUserPassword with
        | .error e => .error e
        | .ok name => .ok (some ⟨name, [], false⟩, host)
      else
        let c := cut (ch ':') userinfo
        match unescape c.1 .encodeUserPassword with
        | .error e => .error e
        | .ok name =>
          match unescape c.2.1 .encodeUserPassword with
          | .error e => .error e
          | .ok password => .ok (some ⟨name, password, true⟩, host)

/-- `(*URL).setPath`. -/
def URL.setPath (u : URL) (p : GoString) : Except LibError URL :=
  match unescape p .encodePath with
  | .error e => .error e
  | .ok path =>
    .ok { u with Path := path, RawPath := if p = escape path .encodePath then [] else p }

/-- `(*URL).setFragment`. -/
def URL.setFragment (u : URL) (f : GoString) : Except LibError URL :=
  match unescape f .encodeFragment with
  | .error e => .error e
  | .ok frag =>
    .ok { u with Fragment := frag,
                 RawFragment := if f = escape frag .encodeFragment then [] else f }

/-- `parse` of package `net/url`. -/
def parse (rawURL : GoString) (viaRequest : Bool) : Except LibError URL :=
  if stringContainsCTLByte rawURL then
    .error (.text (str "net/url: invalid control character in URL"))
  else if rawURL = [] ∧ viaRequest = true then .error (.text (str "empty url"))
  else if rawURL = str "*" then .ok { URL.zero with Path := str "*" }
  else
    match getScheme rawURL with
    | .error e => .error e
    | .ok (scheme, rest) =>
      let url := { URL.zero with Scheme := toLower scheme }
      let forceQuery := hasSuffixStr rest (str "?") && rest.count (ch '?') == 1
      let url := if forceQuery then { url with ForceQuery := true }
                 else { url with RawQuery := (cut (ch '?') rest).2.1 }
      let rest := if forceQuery then rest.take (rest.length - 1) else (cut (ch '?') rest).1
      if !hasPrefixStr rest (str "/") ∧ url.Scheme ≠ [] then .ok { url with Opaque := rest }
      else if !hasPrefixStr rest (str "/") ∧ viaRequest = true then
        .error (.text (str "invalid URI for request"))
      else if !hasPrefixStr rest (str "/") ∧ ch ':' ∈ (cut (ch '/') rest).1 then
        .error (.text (str "first path segment in URL cannot contain colon"))
      else if (url.Scheme ≠ [] ∨ (viaRequest = false ∧ !hasPrefixStr rest (str "///"))) ∧
          hasPrefixStr rest (str "//") then
        let authority := rest.drop 2
        let rest := match authority.indexOf? (ch '/') with
                    | some i => authority.drop i
                    | none => []
        let authority := match authority.indexOf? (ch '/') with
                         | some i => authority.take i
                         | none => authority
        match parseAuthority authority with
        | .error e => .error e
        | .ok (user, host) => URL.setPath { url with User := user, Host := host } rest
      else if url.Scheme ≠ [] ∧ hasPrefixStr rest (str "/") then
        URL.setPath { url with OmitHost := true } rest
      else URL.setPath url rest

/-- `url.Parse`. -/
def Parse (rawURL : GoString) : Except LibError URL :=
  let c := cut (ch '#') rawURL
  match parse c.1 false with
  | .error e => .error (.urlError (str "parse") c.1 e)
  | .ok url =>
    if c.2.1 = [] then .ok url
    else
      match URL.setFragment url c.2.1 with
      | .error e => .error (.urlError (str "parse") rawURL e)
      | .ok url => .ok url

/-- `validEncoded` of package `net/url`. -/
def validEncoded (s : GoString) (mode : Encoding) : Bool :=
  s.all (fun c => c ∈ str "!$&'()*+,;=:@[]%" || !shouldEscape c mode)

/-- `(*URL).EscapedPath`. -/
def URL.EscapedPath (u : URL) : GoString :=
  if u.RawPath ≠ [] ∧ validEncoded u.RawPath .encodePath ∧
      unescape u.RawPath .encodePath = .ok u.Path then u.RawPath
  else if u.Path = str "*" then str "*"
  else escape u.Path .encodePath

/-- `(*URL).EscapedFragment`. -/
def URL.EscapedFragment (u : URL) : GoString :=
  if u.RawFragment ≠ [] ∧ validEncoded u.RawFragment .encodeFragment ∧
      unescape u.RawFragment .encodeFragment = .ok u.Fragment then u.RawFragment
  else escape u.Fragment .encodeFragment

/-- `(*Userinfo).String`. -/
def Userinfo.String (u : Userinfo) : GoString :=
  escape u.username .encodeUserPassword ++
    (if u.passwordSet then str ":" ++ escape u.password .encodeUserPassword else [])

/-- `(*URL).String`: the parts written to the buffer, in order. -/
def URL.String (u : URL) : GoString :=
  let buf : GoString := if u.Scheme ≠ [] then u.Scheme ++ str ":" else []
  let buf : GoString :=
    if u.Opaque ≠ [] then buf ++ u.Opaque
    else
      let buf : GoString :=
        if u.Scheme ≠ [] ∨ u.Host ≠ [] ∨ u.User.isSome then
          if u.OmitHost ∧ u.Host = [] ∧ u.User.isNone then buf
          else
            buf ++ (if u.Host ≠ [] ∨ u.Path ≠ [] ∨ u.User.isSome then str "//" else []) ++
              (match u.User with
               | some ui => Userinfo.String ui ++ str "@"
               | none => []) ++
              (if u.Host ≠ [] then escape u.Host .encodeHost else [])
        else buf
      let path := URL.EscapedPath u
      let buf : GoString :=
        if path ≠ [] ∧ path.head? ≠ some (ch '/') ∧ u.Host ≠ [] then buf ++ str "/" else buf
      let buf : GoString :=
        if buf.length = 0 ∧ ch ':' ∈ (cut (ch '/') path).1 then buf ++ str "./" else buf
      buf ++ path
  let buf : GoString :=
    if u.ForceQuery ∨ u.RawQuery ≠ [] then buf ++ str "?" ++ u.RawQuery else buf
  if u.Fragment ≠ [] then buf ++ str "#" ++ URL.EscapedFragment u else buf

/-- `(*URL).Query`: the parsed `RawQuery`, errors dropped. -/
def URL.Query (u : URL) : Values := (ParseQuery u.RawQuery).1

/-! ## Package `encoding/base64` -/

/-- The alphabet of `base64.StdEncoding` (`encodeStd`), read at `n`. -/
def encodeStd (n : Nat) : Byte :=
  (str "ABCDEFGHIJKLMNOPQRSTUVWXYZabcdefghijklmnopqrstuvwxyz0123456789+/").getD n 0

/-- `base64.StdEncoding.EncodeToString`: three bytes give four characters;
a last block of one or two bytes is padded with `=`. -/
def base64Encode : List Byte → GoString
  | [] => []
  | [a] =>
    let val := a.val * 65536
    [encodeStd (val / 262144 % 64), encodeStd (val / 4096 % 64), ch '=', ch '=']
  | [a, b] =>
    let val := a.val * 65536 + b.val * 256
    [encodeStd (val / 262144 % 64), encodeStd (val / 4096 % 64), encodeStd (val / 64 % 64),
      ch '=']
  | a :: b :: c :: rest =>
    let val := a.val * 65536 + b.val * 256 + c.val
    encodeStd (val / 262144 % 64) :: encodeStd (val / 4096 % 64) ::
      encodeStd (val / 64 % 64) :: encodeStd (val % 64) :: base64Encode rest

/-- The decoding table of `base64.StdEncoding` (`decodeMap`): the index of a
character in the alphabet, `none` for a character outside it. -/
def decodeStd (c : Byte) : Option Nat :=
  (str "ABCDEFGHIJKLMNOPQRSTUVWXYZabcdefghijklmnopqrstuvwxyz0123456789+/").indexOf? c

/-- Decoding of a text without line breaks, four characters at a time;
padding is accepted in the last block only. -/
def base64DecodeBlocks : GoString → Option (List Byte)
  | [] => some []
  | a :: b :: c :: d :: rest =>
    match decodeStd a, decodeStd b with
    | some x, some y =>
      if c = ch '=' then
        if d = ch '=' ∧ rest = [] then some [byte (x * 4 + y / 16)] else none
      else
        match decodeStd c with
        | none => none
        | some z =>
          if d = ch '=' then
            if rest = [] then some [byte (x * 4 + y / 16), byte (y % 16 * 16 + z / 4)] else none
          else
            match decodeStd d with
            | none => none
            | some w =>
              (base64DecodeBlocks rest).map (fun t =>
                byte (x * 4 + y / 16) :: byte (y % 16 * 16 + z / 4) :: byte (z % 4 * 64 + w) :: t)
    | _, _ => none
  | _ => none

/-- `base64.StdEncoding.DecodeString`: line breaks are skipped, then the
text is decoded block by block; `none` stands for a `CorruptInputError`. -/
def base64Decode (s : GoString) : Option (List Byte) :=
  base64DecodeBlocks (s.filter (fun c => c ≠ ch '\n' ∧ c ≠ ch '\r'))

/-! ## Package `net/http` -/

/-- Token characters of HTTP (`httpguts.IsTokenRune`, and
`validHeaderFieldByte` of `net/textproto`). -/
def isTokenByte (c : Byte) : Bool := isAlnum c || c ∈ str "!#$%&'*+-.^_`|~"

/-- `textproto.CanonicalMIMEHeaderKey`: a key with a byte that is not a
token character is left as it is; otherwise the first letter and every
letter after a `-` are made upper case and the others lower case. -/
def canonicalLoop : GoString → Bool → GoString
  | [], _ => []
  | c :: rest, upper =>
    let c2 : Byte :=
      if upper ∧ 97 ≤ c.val ∧ c.val ≤ 122 then byte (c.val - 32)
      else if ¬upper ∧ 65 ≤ c.val ∧ c.val ≤ 90 then byte (c.val + 32)
      else c
    c2 :: canonicalLoop rest (c2 == ch '-')

/-- `textproto.CanonicalMIMEHeaderKey`. -/
def CanonicalMIMEHeaderKey (s : GoString) : GoString :=
  if s.all isTokenByte then canonicalLoop s true else s

/-- `Header.Set`: `h[CanonicalMIMEHeaderKey(key)] = []string{value}`. -/
def Header.Set (h : Values) (key value : GoString) : Values :=
  Values.put h (CanonicalMIMEHeaderKey key) [value]

/-- `Header.Get`: the first value under the canonical form of `key`. -/
def Header.Get (h : Values) (key : GoString) : GoString :=
  Values.Get h (CanonicalMIMEHeaderKey key)

/-- An `http.Request`, as `http.NewRequest` fills it. -/
structure Request where
  Method : GoString
  URL : URL
  Proto : GoString
  Header : Values
  Body : Option (List Byte)
  Host : GoString
deriving DecidableEq, Repr

/-- An `http.Response`, as far as the program can see it. -/
structure Response where
  Status : GoString
  StatusCode : Int
  Header : Values
  Body : List Byte
deriving DecidableEq, Repr

/-- `validMethod` of package `net/http`. -/
def validMethod (method : GoString) : Bool := method.length > 0 && method.all isTokenByte

/-- `removeEmptyPort` of package `net/http`: a host ending in `:` with
nothing after it loses that colon. -/
def removeEmptyPort (host : GoString) : GoString :=
  let hasPort : Bool :=
    match lastIndexByte (ch ':') host, lastIndexByte (ch ']') host with
    | some i, some j => decide (i > j)
    | some _, none => true
    | none, _ => false
  if hasPort ∧ hasSuffixStr host (str ":") then host.take (host.length - 1) else host

/-- `http.NewRequest(method, url, nil)`. -/
def NewRequest (method url : GoString) : Except LibError Request :=
  let method := if method = [] then str "GET" else method
  if !validMethod method then .error (.invalidMethod method)
  else
    match Parse url with
    | .error e => .error e
    | .ok u =>
      let u := { u with Host := removeEmptyPort u.Host }
      .ok ⟨method, u, str "HTTP/1.1", [], none, u.Host⟩

/-- `basicAuth` of package `net/http`. -/
def basicAuth (username password : GoString) : GoString :=
  base64Encode (username ++ str ":" ++ password)

/-- `(*Request).SetBasicAuth`. -/
def Request.SetBasicAuth (r : Request) (username password : GoString) : Request :=
  { r with Header := Header.Set r.Header (str "Authorization")
                       (str "Basic " ++ basicAuth username password) }

/-! ## Package `net/url`: references -/

/-- `strings.Split(s, "/")`: the segments of `s` between slashes. -/
def segments : GoString → List GoString
  | [] => [[]]
  | c :: rest =>
    if c = ch '/' then [] :: segments rest
    else
      match segments rest with
      | [] => [[c]]
      | s :: ss => (c :: s) :: ss

/-- One turn of the loop of `resolvePath`, for the segment `elem`; the state
is the text written so far (`dst`) and the flag `first`. -/
def resolveStep (st : GoString × Bool) (elem : GoString) : GoString × Bool :=
  if elem = str "." then (st.1, false)
  else if elem = str ".." then
    match lastIndexByte (ch '/') (st.1.drop 1) with
    | none => (str "/", true)
    | some index => (str "/" ++ (st.1.drop 1).take index, st.2)
  else ((if st.2 then st.1 else st.1 ++ str "/") ++ elem, false)

/-- `resolvePath` of package `net/url`: the reference path applied to the
base path, with `.` and `..` segments removed. -/
def resolvePath (base ref : GoString) : GoString :=
  let full : GoString :=
    if ref = [] then base
    else if ref.head? ≠ some (ch '/') then
      (match lastIndexByte (ch '/') base with
       | some i => base.take (i + 1)
       | none => []) ++ ref
    else ref
  if full = [] then []
  else
    let st := (segments full).foldl resolveStep (str "/", true)
    let last := (segments full).getLast?.getD []
    let dst := if last = str "." ∨ last = str ".." then st.1 ++ str "/" else st.1
    if dst.length > 1 ∧ dst.getD 1 0 = ch '/' then dst.drop 1 else dst

/-- A call `url.setPath(p)` whose error is dropped: on an error the URL is
left as it was. -/
def URL.setPathKeep (u : URL) (p : GoString) : URL :=
  match URL.setPath u p with
  | .ok v => v
  | .error _ => u

/-- `(*URL).ResolveReference`. -/
def URL.ResolveReference (u ref : URL) : URL :=
  let url : URL := if ref.Scheme = [] then { ref with Scheme := u.Scheme } else ref
  if ref.Scheme ≠ [] ∨ ref.Host ≠ [] ∨ ref.User.isSome then
    URL.setPathKeep url (resolvePath (URL.EscapedPath ref) [])
  else if ref.Opaque ≠ [] then { url with User := none, Host := [], Path := [] }
  else
    let url : URL :=
      if ref.Path = [] ∧ ref.ForceQuery = false ∧ ref.RawQuery = [] then
        if ref.Fragment = [] then
          { url with RawQuery := u.RawQuery, Fragment := u.Fragment,
                     RawFragment := u.RawFragment }
        else { url with RawQuery := u.RawQuery }
      else url
    if ref.Path = [] ∧ u.Opaque ≠ [] then
      { url with Opaque := u.Opaque, User := none, Host := [], Path := [] }
    else
      URL.setPathKeep { url with Host := u.Host, User := u.User }
        (resolvePath (URL.EscapedPath u) (URL.EscapedPath ref))

/-- `(*URL).Parse`: the reference `ref` parsed and resolved against `u`. -/
def URL.Parse (u : URL) (ref : GoString) : Except LibError URL :=
  match Noip.Parse ref with
  | .error e => .error e
  | .ok refURL => .ok (URL.ResolveReference u refURL)

/-- `(*URL).Hostname`: the host without a valid port and without the
brackets of an IPv6 literal. -/
def URL.Hostname (u : URL) : GoString :=
  let host : GoString :=
    match lastIndexByte (ch ':') u.Host with
    | some colon => if validOptionalPort (u.Host.drop colon) then u.Host.take colon else u.Host
    | none => u.Host
  if hasPrefixStr host (str "[") ∧ hasSuffixStr host (str "]") then
    (host.drop 1).take (host.length - 2)
  else host

/-- `strings.Replace(s, old, new, 1)`. -/
def replaceFirst (s old new : GoString) : GoString :=
  match indexStr s old with
  | none => s
  | some i => s.take i ++ new ++ s.drop (i + old.length)

/-! ## Package `net/http`: the client -/

/-- `stripPassword` of package `net/http`: the text of a URL with a
password replaced by `***`. -/
def stripPassword (u : URL) : GoString :=
  match u.User with
  | some ui =>
    if ui.passwordSet then
      replaceFirst (URL.String u) (Userinfo.String ui ++ str "@") (ui.username ++ str ":***@")
    else URL.String u
  | none => URL.String u

/-- `urlErrorOp` of package `net/http`: `Get` for the method `GET`. -/
def urlErrorOp (method : GoString) : GoString :=
  if method = [] then str "Get"
  else if (method.drop 1).all (fun b => 32 ≤ b.val && b.val ≤ 126) then
    method.take 1 ++ toLower (method.drop 1)
  else method

/-- `redirectBehavior` of package `net/http`: the method of the next
request, whether to redirect, and whether to send the body again. A request
of this embedding has no `GetBody`, and its outgoing length is zero exactly
when it has no body. -/
def redirectBehavior (reqMethod : GoString) (resp : Response) (ireq : Request) :
    GoString × Bool × Bool :=
  if resp.StatusCode = 301 ∨ resp.StatusCode = 302 ∨ resp.StatusCode = 303 then
    (if reqMethod ≠ str "GET" ∧ reqMethod ≠ str "HEAD" then str "GET" else reqMethod, true, false)
  else if resp.StatusCode = 307 ∨ resp.StatusCode = 308 then
    (reqMethod, ireq.Body.isNone, true)
  else ([], false, false)

/-- `isDomainOrSubdomain` of package `net/http`. -/
def isDomainOrSubdomain (sub parent : GoString) : Bool :=
  if sub = parent then true
  else if ch ':' ∈ sub ∨ ch '%' ∈ sub then false
  else if !hasSuffixStr sub parent then false
  else sub.getD (sub.length - parent.length - 1) 0 == ch '.'

/-- `idnaASCIIFromURL` of package `net/http`; `toASCII` is
`idna.Lookup.ToASCII`, asked only for a host name that is not ASCII. -/
def idnaASCIIFromURL (toASCII : GoString → Except LibError GoString) (u : URL) : GoString :=
  if (URL.Hostname u).all (fun b => b.val < 0x80) then URL.Hostname u
  else
    match toASCII (URL.Hostname u) with
    | .ok v => v
    | .error _ => URL.Hostname u

/-- `shouldCopyHeaderOnRedirect` of package `net/http`. -/
def shouldCopyHeaderOnRedirect (toASCII : GoString → Except LibError GoString)
    (initial dest : URL) : Bool :=
  isDomainOrSubdomain (idnaASCIIFromURL toASCII dest) (idnaASCIIFromURL toASCII initial)

/-- The headers that are not copied once a redirect has left the domain of
the first request (as of Go 1.24). -/
def isSensitiveHeader (k : GoString) : Bool :=
  CanonicalMIMEHeaderKey k ∈ [str "Authorization", str "Www-Authenticate", str "Cookie",
    str "Cookie2", str "Proxy-Authorization", str "Proxy-Authenticate"]

/-- `refererForURL` of package `net/http`. -/
def refererForURL (lastReq newReq : URL) (explicitRef : GoString) : GoString :=
  if lastReq.Scheme = str "https" ∧ newReq.Scheme = str "http" then []
  else if explicitRef ≠ [] then explicitRef
  else
    match lastReq.User with
    | some ui => replaceFirst (URL.String lastReq) (Userinfo.String ui ++ str "@") []
    | none => URL.String lastReq

/-- What lies under `http.DefaultClient`: `send` is `(*Client).send`, one
request sent and its answer; `toASCII` is `idna.Lookup.ToASCII`. -/
structure Client where
  send : Request → Except LibError Response
  toASCII : GoString → Except LibError GoString

/-- What `(*Client).do` returns: a response, or an error (in one case
together with the last response). -/
inductive DoOutcome where
  | returned (resp : Response)
  | failed (resp : Option Response) (err : LibError)
deriving DecidableEq, Repr

/-- What `main` sees of the outcome: `resp, err := Do(req)` with the test
`err != nil`. -/
def DoOutcome.value : DoOutcome → Except LibError Response
  | .returned resp => .ok resp
  | .failed _ err => .error err

/-- A call of `Do`: the requests sent, in order, and the outcome. -/
structure DoResult where
  sent : List Request
  outcome : DoOutcome
deriving DecidableEq, Repr

/-- One turn of the loop of `(*Client).do` for `http.DefaultClient` (no
`CheckRedirect`, no `Jar`, no `Timeout`): `req` is sent after the requests
`reqs`; the result is the outcome of `Do`, or the next request together
with the flag `stripSensitiveHeaders`. The flag is the one of Go 1.24: once
a redirect has left the domain of the first request it stays set for the
rest of the call. -/
def Client.hop (c : Client) (reqs : List Request) (req : Request) (strip : Bool) :
    DoOutcome ⊕ (Request × Bool) :=
  let ireq := (reqs ++ [req]).headD req
  let op := urlErrorOp ireq.Method
  match c.send req with
  | .error e => .inl (.failed none (.urlError op (stripPassword req.URL) e))
  | .ok resp =>
    let rb := redirectBehavior req.Method resp ireq
    if rb.2.1 = false then .inl (.returned resp)
    else if Header.Get resp.Header (str "Location") = [] then .inl (.returned resp)
    else
      let loc := Header.Get resp.Header (str "Location")
      match URL.Parse req.URL loc with
      | .error e =>
        .inl (.failed none (.urlError op (stripPassword req.URL) (.locationError loc e)))
      | .ok u =>
        let relative : Bool :=
          match Noip.Parse loc with
          | .ok lu => lu.Scheme == []
          | .error _ => false
        let host : GoString :=
          if req.Host ≠ [] ∧ req.Host ≠ req.URL.Host ∧ relative = true then req.Host else []
        let strip2 : Bool :=
          strip || (ireq.URL.Host != u.Host && !shouldCopyHeaderOnRedirect c.toASCII ireq.URL u)
        let copied : Values := ireq.Header.filter (fun kv => !(isSensitiveHeader kv.1 && strip2))
        let ref := refererForURL req.URL u (Header.Get copied (str "Referer"))
        let hdr : Values := if ref ≠ [] then Header.Set copied (str "Referer") ref else copied
        if (reqs ++ [req]).length ≥ 10 then
          .inl (.failed (some resp) (.urlError op loc (.text (str "stopped after 10 redirects"))))
        else .inr (⟨rb.1, u, [], hdr, none, host⟩, strip2)

/-- The loop of `(*Client).do`. The first argument bounds the number of
turns; `Do` gives it 10, and a turn that has ten requests behind it never
asks for another one, so the bound is not reached. -/
def Client.doLoop (c : Client) : Nat → List Request → Request → Bool → DoResult
  | 0, reqs, req, strip =>
    match c.hop reqs req strip with
    | .inl o => ⟨reqs ++ [req], o⟩
    | .inr _ =>
      ⟨reqs ++ [req], .failed none (.text (str "stopped after 10 redirects"))⟩
  | n + 1, reqs, req, strip =>
    match c.hop reqs req strip with
    | .inl o => ⟨reqs ++ [req], o⟩
    | .inr next => Client.doLoop c n (reqs ++ [req]) next.1 next.2

/-- `http.DefaultClient.Do(req)`. -/
def Client.Do (c : Client) (req : Request) : DoResult := Client.doLoop c 10 [] req false

/-! ## `main` (main.go, lines 47-100) -/

/-- The constant `updateBaseURL`. -/
def updateBaseURL : GoString := str "https://dynupdate.no-ip.com/nic/update"

/-- The constant `userAgent`. -/
def userAgent : GoString := str "noip/v1.0.0 mazebuhu.io/noip"

/-- The variable `cfg` of `main`. -/
structure Config where
  Username : GoString
  Password : GoString
  Hostname : GoString
  Interface : GoString
deriving DecidableEq, Repr

/-- What a run of the program depends on besides its code: the file system
(`ioutil.ReadFile`), the JSON decoder (`json.Unmarshal` into `cfg`), the
interface table, and the HTTP exchange (`http.DefaultClient.Do`). -/
structure World where
  readFile : GoString → Except LibError (List Byte)
  unmarshal : List Byte → Except LibError Config
  net : NetEnv
  httpDo : Request → Except LibError Response

/-- What `log.Fatal` or `log.Fatalf` is given: an error (`log.Fatal(err)`), or
the status text of a response
(`log.Fatalf("error in response: %q\n", resp.Status)`). -/
inductive LogLine where
  | err (e : Error)
  | response (status : GoString)
deriving DecidableEq, Repr

/-- The text of a log line; `quote` is `strconv.Quote`. -/
def LogLine.text (quote : GoString → GoString) : LogLine → GoString
  | .err e => e.message quote
  | .response status => str "error in response: " ++ quote status ++ str "\n"

/-- The effects of a run, in the order they happen. -/
inductive Event where
  | readFile (path : GoString)
  | resolve (name : GoString)
  | httpDo (req : Request)
  | logFatal (line : LogLine)
deriving DecidableEq, Repr

/-- A finished run: its effects and the exit status of the process. -/
structure Run where
  events : List Event
  exitCode : Nat
deriving DecidableEq, Repr

/-- `log.Fatal`: the line is logged and the process exits with status 1. -/
def fatal (before : List Event) (line : LogLine) : Run :=
  ⟨before ++ [Event.logFatal line], 1⟩

/-- Lines 76-83 of `main`: the update URL for a hostname value and an IP
string, the base URL parsed and its query replaced by the encoding of
`hostname` and `myip`. -/
def updateURL (hostname ip : GoString) : Except LibError URL :=
  match Parse updateBaseURL with
  | .error e => .error e
  | .ok u =>
    let q := URL.Query u
    let q := Values.Set q (str "hostname") hostname
    let q := Values.Set q (str "myip") ip
    .ok { u with RawQuery := Values.Encode q }

/-- Lines 85-90 of `main`: the request for a configuration and a URL
text. -/
def updateRequest (cfg : Config) (url : GoString) : Except LibError Request :=
  match NewRequest (str "GET") url with
  | .error e => .error e
  | .ok req =>
    let req := Request.SetBasicAuth req cfg.Username cfg.Password
    .ok { req with Header := Header.Set req.Header (str "User-Agent") userAgent }

/-- The function `main` from the point where `flag.Parse` has returned, run
in a world with the `-config` value `confFile`. -/
def main (w : World) (confFile : GoString) : Run :=
  match w.readFile confFile with
  | .error e => fatal [.readFile confFile] (.err (.lib e))
  | .ok data =>
    match w.unmarshal data with
    | .error e => fatal [.readFile confFile] (.err (.lib e))
    | .ok cfg =>
      let r := IPv4 w.net cfg.Interface
      match r.err with
      | some e => fatal [.readFile confFile, .resolve cfg.Interface] (.err e)
      | none =>
        match updateURL cfg.Hostname r.ip with
        | .error e => fatal [.readFile confFile, .resolve cfg.Interface] (.err (.lib e))
        | .ok u =>
          match updateRequest cfg (URL.String u) with
          | .error e => fatal [.readFile confFile, .resolve cfg.Interface] (.err (.lib e))
          | .ok req =>
            match w.httpDo req with
            | .error e =>
              fatal [.readFile confFile, .resolve cfg.Interface, .httpDo req] (.err (.lib e))
            | .ok resp =>
              if resp.StatusCode ≠ 200 then
                fatal [.readFile confFile, .resolve cfg.Interface, .httpDo req]
                  (.response resp.Status)
              else ⟨[.readFile confFile, .resolve cfg.Interface, .httpDo req], 0⟩

/-! ## Notions used in the statements -/

/-- The bytes that query escaping leaves as they are: letters, digits, `-`,
`_`, `.` and `~`. -/
def isUnreserved (c : Byte) : Bool := isAlnum c || c ∈ str "-_.~"

/-- Whether a 16-byte address is an IPv4 address expressed in IPv6
(`::ffff:a.b.c.d`): ten zero bytes, then `0xff 0xff`. -/
def isIPv4in6 (ip : IP) : Bool :=
  ip.length == 16 && isZeros (ip.take 10) && ip.getD 10 0 == 0xff && ip.getD 11 0 == 0xff

/-- Whether an address is a pure IPv6 one: 16 bytes, not IPv4 expressed in
IPv6. -/
def isPureIPv6 (ip : IP) : Bool := ip.length == 16 && !isIPv4in6 ip

/-- Whether an effect is the HTTP exchange, that is, a call of
`http.DefaultClient.Do`. -/
def Event.isHttpDo : Event → Bool
  | .httpDo _ => true
  | _ => false

/-- A run that ends fatally before any HTTP exchange: exit status 1, a
fatal log line as its last effect, and no HTTP exchange among its
effects. -/
def endsBeforeRequest (r : Run) : Prop :=
  r.exitCode = 1 ∧ (∃ l, r.events.getLast? = some (Event.logFatal l)) ∧
    ∀ req, Event.httpDo req ∉ r.events

/-- The world `w` with the body of every response replaced by `body`. -/
def World.withBody (w : World) (body : List Byte) : World where
  readFile := w.readFile
  unmarshal := w.unmarshal
  net := w.net
  httpDo := fun req =>
    match w.httpDo req with
    | .error e => .error e
    | .ok resp => .ok { resp with Body := body }

/-- The world `w` with `http.DefaultClient.Do` worked out by the client
over `c`: what `main` gets from `Do` is the outcome of the loop of
redirects. -/
def World.withClient (w : World) (c : Client) : World where
  readFile := w.readFile
  unmarshal := w.unmarshal
  net := w.net
  httpDo := fun req => (Client.Do c req).outcome.value

/-- The HTTP requests sent in a run, when the client works over `c`: for
each call of `Do` in the run, the requests that call sends. -/
def requestsSent (c : Client) (r : Run) : List Request :=
  r.events.flatMap (fun ev =>
    match ev with
    | .httpDo req => (Client.Do c req).sent
    | _ => [])

/-! ## Sample data -/

/-- A sample interface. -/
def eth0 : Interface := ⟨2, 1500, str "eth0", [2, 0, 0, 0, 0, 1], 19⟩

/-- The address `::ffff:192.0.2.1`, in 16 bytes. -/
def mapped192 : IP := [0, 0, 0, 0, 0, 0, 0, 0, 0, 0, 0xff, 0xff, 192, 0, 2, 1]

/-- The address `fe80::1`. -/
def linkLocal6 : IP := [0xfe, 0x80, 0, 0, 0, 0, 0, 0, 0, 0, 0, 0, 0, 0, 0, 1]

/-- The netmask `/96`. -/
def mask96 : List Byte := List.replicate 12 0xff ++ List.replicate 4 0

/-- The netmask `/64`. -/
def mask64 : List Byte := List.replicate 8 0xff ++ List.replicate 8 0

/-- An address list in the order an operating system may report it: a
non-IP-network entry, a pure IPv6 address, and two IPv4 addresses. -/
def sampleAddrs : List Addr :=
  [Addr.other (str "ip") (str "fe80::1"), Addr.ipNet linkLocal6 mask64,
    Addr.ipNet [192, 0, 2, 1] [255, 255, 255, 0], Addr.ipNet [10, 0, 0, 1] [255, 0, 0, 0]]

/-- A table with the single interface `eth0` carrying the given addresses. -/
def envWith (addrs : List Addr) : NetEnv where
  interfaceByName := fun n =>
    if n = str "eth0" then .ok eth0
    else .error (.os (str "route ip+net: no such network interface"))
  addrs := fun _ => .ok addrs

/-- A table in which `eth0` exists and enumerating its addresses fails. -/
def envAddrsFail : NetEnv where
  interfaceByName := fun n =>
    if n = str "eth0" then .ok eth0
    else .error (.os (str "route ip+net: no such network interface"))
  addrs := fun _ => .error (.os (str "route ip+net: netlinkrib: too many open files"))

/-- The configuration of scenario A. -/
def sampleConfig : Config := ⟨str "u", str "p", str "h.example.com", str "eth0"⟩

/-- The text of the configuration file of scenario A. -/
def sampleJSON : List Byte :=
  str "\x7b\"username\":\"u\",\"password\":\"p\"," ++
    str "\"hostname\":\"h.example.com\",\"interface\":\"eth0\"\x7d"

/-- The world of scenario A: the configuration file is at the default path,
`eth0` has the address `203.0.113.5`, and the provider answers every request
with `answer`. -/
def sampleWorld (answer : Except LibError Response) : World where
  readFile := fun p =>
    if p = str "/etc/noip/noip.json" then .ok sampleJSON
    else .error (.os (str "open: no such file or directory"))
  unmarshal := fun d =>
    if d = sampleJSON then .ok sampleConfig
    else .error (.os (str "unexpected end of JSON input"))
  net := envWith [Addr.ipNet [203, 0, 113, 5] [255, 255, 255, 0]]
  httpDo := fun _ => answer

/-- The request of scenario A. -/
def sampleRequest : Request :=
  ⟨str "GET",
   ⟨str "https", [], none, str "dynupdate.no-ip.com", str "/nic/update", [], false, false,
     str "hostname=h.example.com&myip=203.0.113.5", [], []⟩,
   str "HTTP/1.1",
   [(str "Authorization", [str "Basic dTpw"]), (str "User-Agent", [userAgent])],
   none, str "dynupdate.no-ip.com"⟩

/-- A response with the given status code and text and a body. -/
def sampleResponse (code : Int) (status : String) (body : String) : Response :=
  ⟨str status, code, [], str body⟩

/-- A provider that answers a request for the path `/nic/update` with
`302 Found` and a `Location` on the same host, and any other request with
`200 OK`. -/
def redirectingClient : Client where
  send := fun req =>
    if req.URL.Path = str "/nic/update" then
      .ok ⟨str "302 Found", 302,
        [(str "Location", [str "https://dynupdate.no-ip.com/nic/update/v2"])], []⟩
    else .ok (sampleResponse 200 "200 OK" "good")
  toASCII := fun s => .ok s

/-- The world of scenario A over the redirecting provider. -/
def redirectWorld : World :=
  World.withClient (sampleWorld (.error (.os (str "unused")))) redirectingClient

/-- The request the client makes of the redirect answer to the request of
scenario A. -/
def redirectedRequest : Request :=
  ⟨str "GET",
   ⟨str "https", [], none, str "dynupdate.no-ip.com", str "/nic/update/v2", [], false, false,
     [], [], []⟩,
   [],
   [(str "Authorization", [str "Basic dTpw"]), (str "User-Agent", [userAgent]),
     (str "Referer",
       [str "https://dynupdate.no-ip.com/nic/update?hostname=h.example.com&myip=203.0.113.5"])],
   none, []⟩

/-! ## Theorems -/

set_option maxRecDepth 100000

/-! ### The address scan -/

theorem scanAddrs_none_of_forall (l : List Addr) (n : Nat)
    (h : ∀ a ∈ l, qualifies a = false) : scanAddrs l n = (none, n + l.length) := by
  induction l generalizing n with
  | nil => simp [scanAddrs]
  | cons a rest ih =>
    have ha : qualifies a = false := h a (List.mem_cons_self _ _)
    have hr : ∀ b ∈ rest, qualifies b = false := fun b hb => h b (List.mem_cons_of_mem _ hb)
    cases a with
    | ipNet ip mask =>
      simp only [qualifies] at ha
      simp only [scanAddrs, ha, Bool.false_eq_true, if_false, ih (n + 1) hr, List.length_cons]
      refine Prod.ext rfl ?_; simp only; omega
    | other nw t =>
      simp only [scanAddrs, ih (n + 1) hr, List.length_cons]
      refine Prod.ext rfl ?_; simp only; omega

theorem scanAddrs_first (pre post : List Addr) (ip : IP) (mask : List Byte) (n : Nat)
    (hpre : ∀ a ∈ pre, qualifies a = false) (hip : (IP.To4 ip).isSome = true) :
    scanAddrs (pre ++ Addr.ipNet ip mask :: post) n = (some (IP.String ip), n + pre.length + 1) := by
  induction pre generalizing n with
  | nil => simp [scanAddrs, hip]
  | cons a rest ih =>
    have ha : qualifies a = false := hpre a (List.mem_cons_self _ _)
    have hr : ∀ b ∈ rest, qualifies b = false := fun b hb => hpre b (List.mem_cons_of_mem _ hb)
    cases a with
    | ipNet ip2 mask2 =>
      simp only [qualifies] at ha
      simp only [List.cons_append, scanAddrs, List.append_eq, ha, Bool.false_eq_true, if_false,
        ih (n + 1) hr,
        List.length_cons]
      refine Prod.ext rfl ?_; simp only; omega
    | other nw t =>
      simp only [List.cons_append, scanAddrs, List.append_eq, ih (n + 1) hr, List.length_cons]
      refine Prod.ext rfl ?_; simp only; omega

/-- A list with a qualifying entry splits at its first qualifying entry. -/
theorem exists_first_qualifying (l : List Addr) (h : ∃ a ∈ l, qualifies a = true) :
    ∃ pre ip mask post, l = pre ++ Addr.ipNet ip mask :: post ∧
      (∀ a ∈ pre, qualifies a = false) ∧ (IP.To4 ip).isSome = true := by
  induction l with
  | nil => obtain ⟨a, ha, _⟩ := h; cases ha
  | cons a rest ih =>
    by_cases hq : qualifies a = true
    · cases a with
      | ipNet ip mask => exact ⟨[], ip, mask, rest, rfl, by simp, by simpa [qualifies] using hq⟩
      | other nw t => simp [qualifies] at hq
    · have hq2 : qualifies a = false := by simpa using hq
      obtain ⟨b, hb, hbq⟩ := h
      have hb2 : b ∈ rest := by
        rcases List.mem_cons.mp hb with rfl | hb2
        · rw [hq2] at hbq; cases hbq
        · exact hb2
      obtain ⟨pre, ip, mask, post, rfl, hpre, hip⟩ := ih ⟨b, hb2, hbq⟩
      refine ⟨a :: pre, ip, mask, post, rfl, ?_, hip⟩
      intro c hc
      rcases List.mem_cons.mp hc with rfl | hc2
      · exact hq2
      · exact hpre c hc2

theorem scanAddrs_none_iff (l : List Addr) (n : Nat) :
    (scanAddrs l n).1 = none ↔ ∀ a ∈ l, qualifies a = false := by
  constructor
  · intro h a ha
    by_contra hq
    have hq2 : qualifies a = true := by simpa using hq
    obtain ⟨pre, ip, mask, post, rfl, hpre, hip⟩ := exists_first_qualifying l ⟨a, ha, hq2⟩
    rw [scanAddrs_first pre post ip mask n hpre hip] at h
    cases h
  · intro h
    rw [scanAddrs_none_of_forall l n h]

theorem To4_of_isIPv4in6 (ip : IP) (h : isIPv4in6 ip = true) :
    IP.To4 ip = some (ip.drop 12) := by
  simp only [isIPv4in6, Bool.and_eq_true, beq_iff_eq] at h
  obtain ⟨⟨⟨h1, h2⟩, h3⟩, h4⟩ := h
  rw [IP.To4, if_neg (by rw [h1]; decide), if_pos ⟨h1, h2, h3, h4⟩]

theorem To4_of_isPureIPv6 (ip : IP) (h : isPureIPv6 ip = true) : IP.To4 ip = none := by
  simp only [isPureIPv6, Bool.and_eq_true, beq_iff_eq, Bool.not_eq_true'] at h
  obtain ⟨h1, h2⟩ := h
  simp only [isIPv4in6, h1, beq_self_eq_true, Bool.true_and, Bool.and_eq_false_imp,
    beq_eq_false_iff_ne, ne_eq, Bool.and_eq_true, beq_iff_eq] at h2
  simp only [IP.To4, h1]
  rw [if_neg (by decide), if_neg]
  rintro ⟨-, hz, h10, h11⟩
  exact h2 ⟨hz, h10⟩ h11

theorem String_of_isIPv4in6 (ip : IP) (h : isIPv4in6 ip = true) :
    IP.String ip = dotted (ip.drop 12) := by
  have h16 : ip.length = 16 := by
    simp only [isIPv4in6, Bool.and_eq_true, beq_iff_eq] at h
    exact h.1.1.1
  simp [IP.String, To4_of_isIPv4in6 ip h, h16]

theorem IPv4_eq_of_scan_some (env : NetEnv) (name : GoString) (i : Interface)
    (addrs : List Addr) (s : GoString) (n : Nat) (hi : env.interfaceByName name = .ok i)
    (ha : env.addrs i = .ok addrs) (hs : scanAddrs addrs 0 = (some s, n)) :
    IPv4 env name = ⟨s, none, n⟩ := by
  simp [IPv4, hi, ha, hs]

theorem IPv4_eq_of_scan_none (env : NetEnv) (name : GoString) (i : Interface)
    (addrs : List Addr) (n : Nat) (hi : env.interfaceByName name = .ok i)
    (ha : env.addrs i = .ok addrs) (hs : scanAddrs addrs 0 = (none, n)) :
    IPv4 env name = ⟨[], some (.noIPv4Found name), n⟩ := by
  simp [IPv4, hi, ha, hs]

theorem getElem?_append_cons_length (pre post : List Addr) (a : Addr) :
    (pre ++ a :: post)[pre.length]? = some a := by
  rw [List.getElem?_append_right (Nat.le_refl _)]
  simp

/-- With a qualifying entry in the list, `IPv4` stops at the first one. -/
theorem IPv4_of_exists_qualifying (env : NetEnv) (name : GoString) (i : Interface)
    (addrs : List Addr) (hi : env.interfaceByName name = .ok i)
    (ha : env.addrs i = .ok addrs) (hq : ∃ a ∈ addrs, qualifies a = true) :
    ∃ (k : Nat) (ip : IP) (mask : List Byte),
      addrs[k]? = some (Addr.ipNet ip mask) ∧ (IP.To4 ip).isSome = true ∧
      (∀ j, j < k → ∀ a, addrs[j]? = some a → qualifies a = false) ∧
      IPv4 env name = ⟨IP.String ip, none, k + 1⟩ := by
  obtain ⟨pre, ip, mask, post, rfl, hpre, hip⟩ := exists_first_qualifying addrs hq
  refine ⟨pre.length, ip, mask, getElem?_append_cons_length pre post _, hip, ?_, ?_⟩
  · intro j hj a haj
    rw [List.getElem?_append_left hj] at haj
    exact hpre a (List.getElem?_mem haj)
  · have hs := scanAddrs_first pre post ip mask 0 hpre hip
    rw [Nat.zero_add] at hs
    exact IPv4_eq_of_scan_some env name i _ _ _ hi ha hs

/-! ### Query escaping -/

/-- What the main loop of `escape` writes for one byte of a query
component: `+` for a space, `%XX` for a byte to escape, the byte itself
otherwise. -/
theorem escapeByte_cases (c : Byte) :
    (c = ch ' ' ∧ escapeByte .encodeQueryComponent c = [ch '+']) ∨
    (c ≠ ch ' ' ∧ shouldEscape c .encodeQueryComponent = true ∧
      escapeByte .encodeQueryComponent c = [ch '%', upperhex (c.val / 16), upperhex (c.val % 16)] ∧
      ishex (upperhex (c.val / 16)) = true ∧ ishex (upperhex (c.val % 16)) = true ∧
      byte (unhex (upperhex (c.val / 16)) * 16 + unhex (upperhex (c.val % 16))) = c) ∨
    (shouldEscape c .encodeQueryComponent = false ∧
      escapeByte .encodeQueryComponent c = [c] ∧ c ≠ ch '%' ∧ c ≠ ch '+') := by
  revert c
  decide

theorem flatMap_eq_map_of_singleton (s : GoString) (g : Byte → GoString) (f : Byte → Byte)
    (h : ∀ c ∈ s, g c = [f c]) : s.flatMap g = s.map f := by
  induction s with
  | nil => rfl
  | cons c rest ih =>
    rw [List.flatMap_cons, List.map_cons, h c (List.mem_cons_self _ _),
      ih (fun d hd => h d (List.mem_cons_of_mem _ hd))]
    rfl

/-- The three paths of `escape` agree with its main loop. -/
theorem escape_query_eq (s : GoString) :
    escape s .encodeQueryComponent = s.flatMap (escapeByte .encodeQueryComponent) := by
  unfold escape
  simp only [beq_self_eq_true, Bool.and_true]
  split_ifs with h1 h2
  · obtain ⟨ha, hb⟩ := h1
    rw [List.countP_eq_zero] at ha hb
    have hs : ∀ c ∈ s, escapeByte .encodeQueryComponent c = [id c] := by
      intro c hc
      have h1 := ha c hc
      have h2 := hb c hc
      rcases escapeByte_cases c with ⟨rfl, -⟩ | ⟨hne, hse, -⟩ | ⟨-, he, -⟩
      · exact absurd (by decide) h1
      · simp [hse, hne] at h2
      · exact he
    rw [flatMap_eq_map_of_singleton s _ id hs, List.map_id]
  · rw [List.countP_eq_zero] at h2
    symm
    apply flatMap_eq_map_of_singleton
    intro c hc
    have h3 := h2 c hc
    rcases escapeByte_cases c with ⟨rfl, he⟩ | ⟨hne, hse, -⟩ | ⟨-, he, hp, hq⟩
    · rw [he, if_pos rfl]
    · simp [hse, hne] at h3
    · by_cases hsp : c = ch ' '
      · subst hsp; exact absurd he (by decide)
      · rw [he, if_neg hsp]
  · rfl

theorem QueryEscape_eq (s : GoString) :
    QueryEscape s = s.flatMap (escapeByte .encodeQueryComponent) :=
  escape_query_eq s

theorem shouldEscape_of_unreserved (c : Byte) (h : isUnreserved c = true) :
    shouldEscape c .encodeQueryComponent = false := by
  revert c
  decide

/-- Bytes that query escaping leaves as they are: letters, digits, `-`,
`_`, `.` and `~`. -/
theorem QueryEscape_of_unreserved (s : GoString)
    (h : ∀ c ∈ s, isUnreserved c = true) : QueryEscape s = s := by
  rw [QueryEscape_eq]
  have hs : ∀ c ∈ s, escapeByte .encodeQueryComponent c = [id c] := by
    intro c hc
    have hu := h c hc
    rcases escapeByte_cases c with ⟨rfl, -⟩ | ⟨hne, hse, -⟩ | ⟨-, he, -⟩
    · exact absurd hu (by decide)
    · exact absurd hse (by rw [shouldEscape_of_unreserved c hu]; decide)
    · exact he
  rw [flatMap_eq_map_of_singleton s _ id hs, List.map_id]

theorem unescapeCheck_plus (rest : GoString) (n : Nat) (hp : Bool) :
    unescapeCheck .encodeQueryComponent (ch '+' :: rest) n hp
      = unescapeCheck .encodeQueryComponent rest n true := by
  rw [unescapeCheck.eq_def]
  simp [show ch '+' ≠ ch '%' by decide]

theorem unescapeCheck_pct (a b : Byte) (rest : GoString) (n : Nat) (hp : Bool)
    (ha : ishex a = true) (hb : ishex b = true) :
    unescapeCheck .encodeQueryComponent (ch '%' :: a :: b :: rest) n hp
      = unescapeCheck .encodeQueryComponent rest (n + 1) hp := by
  rw [unescapeCheck.eq_def]
  simp [ha, hb]

theorem unescapeCheck_plain (c : Byte) (rest : GoString) (n : Nat) (hp : Bool)
    (h1 : c ≠ ch '%') (h2 : c ≠ ch '+') :
    unescapeCheck .encodeQueryComponent (c :: rest) n hp
      = unescapeCheck .encodeQueryComponent rest n hp := by
  rw [unescapeCheck.eq_def]
  simp only
  rw [if_neg h1, if_neg h2, if_neg (by simp)]

theorem unescapeLoop_plus (rest : GoString) :
    unescapeLoop .encodeQueryComponent (ch '+' :: rest)
      = ch ' ' :: unescapeLoop .encodeQueryComponent rest := by
  rw [unescapeLoop.eq_def]
  simp [show ch '+' ≠ ch '%' by decide]

theorem unescapeLoop_pct (a b : Byte) (rest : GoString) :
    unescapeLoop .encodeQueryComponent (ch '%' :: a :: b :: rest)
      = byte (unhex a * 16 + unhex b) :: unescapeLoop .encodeQueryComponent rest := by
  rw [unescapeLoop.eq_def]
  simp

theorem unescapeLoop_plain (c : Byte) (rest : GoString) (h1 : c ≠ ch '%') (h2 : c ≠ ch '+') :
    unescapeLoop .encodeQueryComponent (c :: rest)
      = c :: unescapeLoop .encodeQueryComponent rest := by
  rw [unescapeLoop.eq_def]
  simp only
  rw [if_neg h1, if_neg h2]

/-- The first pass of `unescape` accepts every escaped text; it counts the
escapes written and notes a `+`. -/
theorem unescapeCheck_escaped (s : GoString) (n : Nat) (hp : Bool) :
    unescapeCheck .encodeQueryComponent (s.flatMap (escapeByte .encodeQueryComponent)) n hp
      = .ok (n + s.countP (fun c => c ≠ ch ' ' ∧ shouldEscape c .encodeQueryComponent = true),
          hp || s.contains (ch ' ')) := by
  induction s generalizing n hp with
  | nil => simp [unescapeCheck]
  | cons c rest ih =>
    rw [List.flatMap_cons]
    rcases escapeByte_cases c with ⟨rfl, he⟩ | ⟨hne, hse, he, hx1, hx2, -⟩ | ⟨hse, he, hp1, hp2⟩
    · rw [he, List.singleton_append, unescapeCheck_plus, ih]
      refine congrArg Except.ok (Prod.ext ?_ ?_)
      · simp [List.countP_cons]
      · simp [List.contains_cons]
    · rw [he]
      simp only [List.cons_append, List.nil_append]
      rw [unescapeCheck_pct _ _ _ _ _ hx1 hx2, ih]
      have hc : (ch ' ' == c) = false := by
        rw [beq_eq_false_iff_ne]
        exact fun h => hne h.symm
      refine congrArg Except.ok (Prod.ext ?_ ?_)
      · simp only [List.countP_cons, hne, hse, ne_eq, not_false_eq_true, and_self,
          decide_True, if_true]
        omega
      · simp only [List.contains_cons, hc, Bool.false_or]
    · rw [he, List.singleton_append, unescapeCheck_plain _ _ _ _ hp1 hp2, ih]
      have hc : (ch ' ' == c) = false := by
        rw [beq_eq_false_iff_ne]
        rintro rfl
        exact absurd hse (by decide)
      refine congrArg Except.ok (Prod.ext ?_ ?_)
      · simp [List.countP_cons, hse]
      · simp only [List.contains_cons, hc, Bool.false_or]

/-- The second pass of `unescape` undoes the main loop of `escape`. -/
theorem unescapeLoop_escaped (s : GoString) :
    unescapeLoop .encodeQueryComponent (s.flatMap (escapeByte .encodeQueryComponent)) = s := by
  induction s with
  | nil => rfl
  | cons c rest ih =>
    rw [List.flatMap_cons]
    rcases escapeByte_cases c with ⟨rfl, he⟩ | ⟨-, -, he, -, -, hb⟩ | ⟨-, he, hp1, hp2⟩
    · rw [he, List.singleton_append, unescapeLoop_plus, ih]
    · rw [he]
      simp only [List.cons_append, List.nil_append]
      rw [unescapeLoop_pct, ih, hb]
    · rw [he, List.singleton_append, unescapeLoop_plain _ _ hp1 hp2, ih]

/-- Unescaping after escaping gives the text back. -/
theorem QueryUnescape_QueryEscape (s : GoString) : QueryUnescape (QueryEscape s) = .ok s := by
  rw [QueryEscape_eq]
  unfold QueryUnescape unescape
  rw [unescapeCheck_escaped]
  simp only [Bool.false_or, Nat.zero_add]
  split_ifs with h
  · obtain ⟨hn, hsp⟩ := h
    rw [List.countP_eq_zero] at hn
    have hs : ∀ c ∈ s, escapeByte .encodeQueryComponent c = [id c] := by
      intro c hc
      rcases escapeByte_cases c with ⟨rfl, -⟩ | ⟨hne, hse, -⟩ | ⟨-, he, -⟩
      · rw [List.contains_eq_any_beq, List.any_eq_false] at hsp
        exact absurd (beq_self_eq_true _) (hsp _ hc)
      · have := hn c hc
        simp [hne, hse] at this
      · exact he
    rw [flatMap_eq_map_of_singleton s _ id hs, List.map_id]
  · rw [unescapeLoop_escaped]

/-! ### The update URL -/

/-- The value `url.Parse` gives for the constant `updateBaseURL`. -/
theorem Parse_updateBaseURL :
    Parse updateBaseURL = .ok ⟨str "https", [], none, str "dynupdate.no-ip.com",
      str "/nic/update", [], false, false, [], [], []⟩ := by
  decide

/-- The query values after the two `q.Set` calls, encoded. -/
theorem Encode_hostname_myip (h ip : GoString) :
    Values.Encode (Values.Set (Values.Set [] (str "hostname") h) (str "myip") ip)
      = str "hostname=" ++ QueryEscape h ++ str "&myip=" ++ QueryEscape ip := by
  have hk : sortStrings [str "hostname", str "myip"] = [str "hostname", str "myip"] := by decide
  have hne : str "hostname" ≠ str "myip" := by decide
  have e1 : QueryEscape (str "hostname") = str "hostname" := by decide
  have e2 : QueryEscape (str "myip") = str "myip" := by decide
  have l1 : (str "hostname" ++ [ch '='] ++ QueryEscape h).length > 0 := by
    simp [str, encodeRune]
  simp only [Values.Encode, Values.Set, Values.put, hne, if_false, List.map_cons, List.map_nil, hk,
    List.foldl_cons, List.foldl_nil, Values.get, if_true, hne.symm, e1, e2, List.length_nil,
    gt_iff_lt, Nat.lt_irrefl, List.nil_append]
  rw [if_pos l1]
  have a1 : str "hostname=" = str "hostname" ++ [ch '='] := by decide
  have a2 : str "&myip=" = [ch '&'] ++ str "myip" ++ [ch '='] := by decide
  rw [a1, a2]
  simp only [List.append_assoc]

/-- Lines 76-83 never fail: the URL is the parsed base URL with the encoded
query. -/
theorem updateURL_eq (h ip : GoString) :
    updateURL h ip = .ok ⟨str "https", [], none, str "dynupdate.no-ip.com", str "/nic/update",
      [], false, false, str "hostname=" ++ QueryEscape h ++ str "&myip=" ++ QueryEscape ip,
      [], []⟩ := by
  have hq : URL.Query ⟨str "https", [], none, str "dynupdate.no-ip.com", str "/nic/update",
      [], false, false, [], [], []⟩ = [] := by decide
  simp only [updateURL, Parse_updateBaseURL, hq, Encode_hostname_myip]

/-- The text of a URL with the fields of the parsed base URL and a
non-empty query. -/
theorem String_base_with_query (q : GoString) (hq : q ≠ []) :
    URL.String ⟨str "https", [], none, str "dynupdate.no-ip.com", str "/nic/update",
      [], false, false, q, [], []⟩ = updateBaseURL ++ str "?" ++ q := by
  have hp : URL.EscapedPath ⟨str "https", [], none, str "dynupdate.no-ip.com",
      str "/nic/update", [], false, false, q, [], []⟩ = str "/nic/update" := by
    simp only [URL.EscapedPath]
    decide
  have hh : escape (str "dynupdate.no-ip.com") .encodeHost = str "dynupdate.no-ip.com" := by
    decide
  have s1 : str "https" ≠ [] := by decide
  have s2 : str "dynupdate.no-ip.com" ≠ [] := by decide
  have s3 : str "/nic/update" ≠ [] := by decide
  have s4 : (str "/nic/update").head? = some (ch '/') := by decide
  have s5 : (str "https" ++ str ":" ++ str "//" ++ str "dynupdate.no-ip.com").length ≠ 0 := by
    decide
  have s6 : str "https" ++ str ":" ++ str "//" ++ str "dynupdate.no-ip.com" ++ str "/nic/update"
      = updateBaseURL := by decide
  unfold URL.String
  simp only [hp, hh, s1, s2, s3, s4, hq, ne_eq, not_true_eq_false, not_false_eq_true, if_true,
    if_false, true_or, or_true, false_or, or_false, true_and, and_true, false_and, and_false,
    Option.isSome_none, Option.isNone_none, Bool.false_eq_true, List.append_nil, s5, s6]

/-! ### Reading the query back -/

theorem cut_of_not_mem (sep : Byte) (a : GoString) (h : sep ∉ a) :
    cut sep a = (a, [], false) := by
  induction a with
  | nil => rfl
  | cons c rest ih =>
    have hc : c ≠ sep := fun e => h (e ▸ List.mem_cons_self _ _)
    have hr : sep ∉ rest := fun m => h (List.mem_cons_of_mem _ m)
    simp only [cut, hc, if_false, ih hr]

theorem cut_append_sep (sep : Byte) (a b : GoString) (h : sep ∉ a) :
    cut sep (a ++ sep :: b) = (a, b, true) := by
  induction a with
  | nil => simp [cut]
  | cons c rest ih =>
    have hc : c ≠ sep := fun e => h (e ▸ List.mem_cons_self _ _)
    have hr : sep ∉ rest := fun m => h (List.mem_cons_of_mem _ m)
    simp only [List.cons_append, cut, List.append_eq, hc, if_false, ih hr]

/-- Every byte written by query escaping is a letter, a digit, one of
`-_.~`, or `%` or `+`: never a separator. -/
theorem escapeByte_no_separator (c : Byte) :
    ∀ x ∈ escapeByte .encodeQueryComponent c, x ∉ str ",&=; ?#/" := by
  have hall : ∀ c : Byte, (escapeByte .encodeQueryComponent c).all
      (fun x => !(str ",&=; ?#/").contains x) = true := by decide
  intro x hx hmem
  have h1 := List.all_eq_true.mp (hall c) x hx
  rw [Bool.not_eq_true', List.contains_eq_any_beq, List.any_eq_false] at h1
  exact h1 x hmem (beq_self_eq_true x)

theorem QueryEscape_no_separator (s : GoString) :
    ∀ x ∈ QueryEscape s, x ∉ str ",&=; ?#/" := by
  intro x hx
  rw [QueryEscape_eq, List.mem_flatMap] at hx
  obtain ⟨c, -, hxc⟩ := hx
  exact escapeByte_no_separator c x hxc

theorem QueryEscape_not_mem (s : GoString) (x : Byte) (hx : x ∈ str ",&=; ?#/") :
    x ∉ QueryEscape s :=
  fun hm => QueryEscape_no_separator s x hm hx

theorem parseQueryLoop_nil (fuel : Nat) (m : Values) (err : Option LibError) :
    parseQueryLoop fuel m err [] = (m, err) := by
  cases fuel <;> simp [parseQueryLoop]

theorem cut_rest_length_le (sep : Byte) (s : GoString) : (cut sep s).2.1.length ≤ s.length := by
  induction s with
  | nil => simp [cut]
  | cons c rest ih =>
    by_cases hc : c = sep
    · simp [cut, hc]
    · simp only [cut, hc, if_false, List.length_cons]
      omega

theorem cut_rest_length_lt (sep : Byte) (c : Byte) (rest : GoString) :
    (cut sep (c :: rest)).2.1.length ≤ rest.length := by
  by_cases hc : c = sep
  · simp [cut, hc]
  · simp only [cut, hc, if_false]
    exact cut_rest_length_le sep rest

/-- The fuel `ParseQuery` gives its loop is enough: with any fuel of at
least the length of the query the loop gives the same result. -/
theorem parseQueryLoop_fuel (f1 : Nat) :
    ∀ (f2 : Nat) (m : Values) (err : Option LibError) (query : GoString),
      query.length ≤ f1 → query.length ≤ f2 →
      parseQueryLoop f1 m err query = parseQueryLoop f2 m err query := by
  induction f1 with
  | zero =>
    intro f2 m err query h1 _
    have hq : query = [] := List.length_eq_zero.mp (Nat.le_zero.mp h1)
    rw [hq, parseQueryLoop_nil, parseQueryLoop_nil]
  | succ f1 ih =>
    intro f2 m err query h1 h2
    cases query with
    | nil => rw [parseQueryLoop_nil, parseQueryLoop_nil]
    | cons c rest =>
      cases f2 with
      | zero => simp at h2
      | succ f2 =>
        have hl := cut_rest_length_lt (ch '&') c rest
        simp only [List.length_cons, Nat.add_le_add_iff_right] at h1 h2
        have ih2 : ∀ m err, parseQueryLoop f1 m err (cut (ch '&') (c :: rest)).2.1
            = parseQueryLoop f2 m err (cut (ch '&') (c :: rest)).2.1 :=
          fun m err => ih f2 m err _ (by omega) (by omega)
        simp only [parseQueryLoop, ih2]

/-- One iteration of the loop of `parseQuery` on a parameter `k=v` with an
escaped value, followed by `&` and more. -/
theorem parseQueryLoop_param_more (fuel : Nat) (m : Values) (err : Option LibError)
    (k v rest : GoString) (hk0 : k ≠ []) (hk1 : ∀ x ∈ k, x ∉ str ",&=; ?#/")
    (hk2 : QueryUnescape k = .ok k) :
    parseQueryLoop (fuel + 1) m err (k ++ ch '=' :: (QueryEscape v ++ ch '&' :: rest))
      = parseQueryLoop fuel (Values.put m k (Values.get m k ++ [v])) err rest := by
  have hamp : ch '&' ∉ k ++ ch '=' :: QueryEscape v := by
    intro hm
    rcases List.mem_append.mp hm with h1 | h1
    · exact hk1 _ h1 (by decide)
    · rcases List.mem_cons.mp h1 with h2 | h2
      · exact absurd h2 (by decide)
      · exact QueryEscape_not_mem v _ (by decide) h2
  have hsemi : ch ';' ∉ k ++ ch '=' :: QueryEscape v := by
    intro hm
    rcases List.mem_append.mp hm with h1 | h1
    · exact hk1 _ h1 (by decide)
    · rcases List.mem_cons.mp h1 with h2 | h2
      · exact absurd h2 (by decide)
      · exact QueryEscape_not_mem v _ (by decide) h2
  have heq : ch '=' ∉ k := fun h1 => hk1 _ h1 (by decide)
  have hne : k ++ ch '=' :: (QueryEscape v ++ ch '&' :: rest) ≠ [] := by
    cases k with
    | nil => exact absurd rfl hk0
    | cons a as => simp
  have hne2 : k ++ ch '=' :: QueryEscape v ≠ [] := by
    cases k with
    | nil => exact absurd rfl hk0
    | cons a as => simp
  have hcut : cut (ch '&') (k ++ ch '=' :: (QueryEscape v ++ ch '&' :: rest))
      = (k ++ ch '=' :: QueryEscape v, rest, true) := by
    have := cut_append_sep (ch '&') (k ++ ch '=' :: QueryEscape v) rest hamp
    simpa using this
  rw [parseQueryLoop, if_neg hne]
  simp only [hcut, if_neg hsemi, if_neg hne2, cut_append_sep (ch '=') k (QueryEscape v) heq, hk2,
    QueryUnescape_QueryEscape]

/-- One iteration of the loop of `parseQuery` on a last parameter `k=v`
with an escaped value. -/
theorem parseQueryLoop_param_last (fuel : Nat) (m : Values) (err : Option LibError)
    (k v : GoString) (hk0 : k ≠ []) (hk1 : ∀ x ∈ k, x ∉ str ",&=; ?#/")
    (hk2 : QueryUnescape k = .ok k) :
    parseQueryLoop (fuel + 1) m err (k ++ ch '=' :: QueryEscape v)
      = (Values.put m k (Values.get m k ++ [v]), err) := by
  have hamp : ch '&' ∉ k ++ ch '=' :: QueryEscape v := by
    intro hm
    rcases List.mem_append.mp hm with h1 | h1
    · exact hk1 _ h1 (by decide)
    · rcases List.mem_cons.mp h1 with h2 | h2
      · exact absurd h2 (by decide)
      · exact QueryEscape_not_mem v _ (by decide) h2
  have hsemi : ch ';' ∉ k ++ ch '=' :: QueryEscape v := by
    intro hm
    rcases List.mem_append.mp hm with h1 | h1
    · exact hk1 _ h1 (by decide)
    · rcases List.mem_cons.mp h1 with h2 | h2
      · exact absurd h2 (by decide)
      · exact QueryEscape_not_mem v _ (by decide) h2
  have heq : ch '=' ∉ k := fun h1 => hk1 _ h1 (by decide)
  have hne2 : k ++ ch '=' :: QueryEscape v ≠ [] := by
    cases k with
    | nil => exact absurd rfl hk0
    | cons a as => simp
  rw [parseQueryLoop, if_neg hne2]
  simp only [cut_of_not_mem (ch '&') _ hamp, if_neg hsemi, if_neg hne2,
    cut_append_sep (ch '=') k (QueryEscape v) heq, hk2, QueryUnescape_QueryEscape,
    parseQueryLoop_nil]

/-- Parsing the encoded query gives back the two parameters, each with its
single value, and no error. -/
theorem ParseQuery_encoded (h ip : GoString) :
    ParseQuery (str "hostname=" ++ QueryEscape h ++ str "&myip=" ++ QueryEscape ip)
      = ([(str "hostname", [h]), (str "myip", [ip])], none) := by
  have a1 : str "hostname=" = str "hostname" ++ [ch '='] := by decide
  have a2 : str "&myip=" = ch '&' :: (str "myip" ++ [ch '=']) := by decide
  have hform : str "hostname=" ++ QueryEscape h ++ str "&myip=" ++ QueryEscape ip
      = str "hostname" ++ ch '=' :: (QueryEscape h ++ ch '&' ::
          (str "myip" ++ ch '=' :: QueryEscape ip)) := by
    rw [a1, a2]
    simp only [List.append_assoc, List.cons_append, List.nil_append]
  have hlen : (str "hostname" ++ ch '=' :: (QueryEscape h ++ ch '&' ::
      (str "myip" ++ ch '=' :: QueryEscape ip))).length
      = ((QueryEscape h).length + (QueryEscape ip).length + 13) + 1 + 1 := by
    have l1 : (str "hostname").length = 8 := by decide
    have l2 : (str "myip").length = 4 := by decide
    simp only [List.length_append, List.length_cons, l1, l2]
    omega
  rw [hform, ParseQuery, hlen,
    parseQueryLoop_param_more _ _ _ _ _ _ (by decide) (by decide) (by decide),
    parseQueryLoop_param_last _ _ _ _ _ (by decide) (by decide) (by decide)]
  have hne : str "hostname" ≠ str "myip" := by decide
  simp [Values.put, Values.get, hne]

theorem count_eq_zero_of_QueryEscape (s : GoString) (x : Byte) (hx : x ∈ str ",&=; ?#/") :
    (QueryEscape s).count x = 0 :=
  List.count_eq_zero.mpr (QueryEscape_not_mem s x hx)

/-! ### The runner -/

/-- The run once the request is built: the exchange, then the status
check. -/
theorem main_of_request (w : World) (confFile : GoString) (data : List Byte) (cfg : Config)
    (u : URL) (req : Request) (h1 : w.readFile confFile = .ok data)
    (h2 : w.unmarshal data = .ok cfg) (h3 : (IPv4 w.net cfg.Interface).err = none)
    (h4 : updateURL cfg.Hostname (IPv4 w.net cfg.Interface).ip = .ok u)
    (h5 : updateRequest cfg (URL.String u) = .ok req) :
    main w confFile =
      match w.httpDo req with
      | .error e =>
        fatal [.readFile confFile, .resolve cfg.Interface, .httpDo req] (.err (.lib e))
      | .ok resp =>
        if resp.StatusCode ≠ 200 then
          fatal [.readFile confFile, .resolve cfg.Interface, .httpDo req] (.response resp.Status)
        else ⟨[.readFile confFile, .resolve cfg.Interface, .httpDo req], 0⟩ := by
  simp only [main, h1, h2, h3, h4, h5]

theorem main_of_readFile_error (w : World) (confFile : GoString) (e : LibError)
    (h1 : w.readFile confFile = .error e) :
    main w confFile = fatal [.readFile confFile] (.err (.lib e)) := by
  simp only [main, h1]

theorem main_of_unmarshal_error (w : World) (confFile : GoString) (data : List Byte)
    (e : LibError) (h1 : w.readFile confFile = .ok data) (h2 : w.unmarshal data = .error e) :
    main w confFile = fatal [.readFile confFile] (.err (.lib e)) := by
  simp only [main, h1, h2]

theorem main_of_IPv4_error (w : World) (confFile : GoString) (data : List Byte) (cfg : Config)
    (e : Error) (h1 : w.readFile confFile = .ok data) (h2 : w.unmarshal data = .ok cfg)
    (h3 : (IPv4 w.net cfg.Interface).err = some e) :
    main w confFile = fatal [.readFile confFile, .resolve cfg.Interface] (.err e) := by
  simp only [main, h1, h2, h3]

theorem main_of_updateURL_error (w : World) (confFile : GoString) (data : List Byte)
    (cfg : Config) (e : LibError) (h1 : w.readFile confFile = .ok data)
    (h2 : w.unmarshal data = .ok cfg) (h3 : (IPv4 w.net cfg.Interface).err = none)
    (h4 : updateURL cfg.Hostname (IPv4 w.net cfg.Interface).ip = .error e) :
    main w confFile = fatal [.readFile confFile, .resolve cfg.Interface] (.err (.lib e)) := by
  simp only [main, h1, h2, h3, h4]

theorem main_of_updateRequest_error (w : World) (confFile : GoString) (data : List Byte)
    (cfg : Config) (u : URL) (e : LibError) (h1 : w.readFile confFile = .ok data)
    (h2 : w.unmarshal data = .ok cfg) (h3 : (IPv4 w.net cfg.Interface).err = none)
    (h4 : updateURL cfg.Hostname (IPv4 w.net cfg.Interface).ip = .ok u)
    (h5 : updateRequest cfg (URL.String u) = .error e) :
    main w confFile = fatal [.readFile confFile, .resolve cfg.Interface] (.err (.lib e)) := by
  simp only [main, h1, h2, h3, h4, h5]

theorem fatal_endsBeforeRequest (before : List Event) (line : LogLine)
    (h : ∀ ev ∈ before, Event.isHttpDo ev = false) : endsBeforeRequest (fatal before line) := by
  refine ⟨rfl, ⟨line, by simp [fatal]⟩, ?_⟩
  intro req hmem
  simp only [fatal, List.mem_append, List.mem_singleton] at hmem
  rcases hmem with hm | hm
  · exact absurd (h _ hm) (by simp [Event.isHttpDo])
  · cases hm

/-- Every run is of one of two kinds: it ends fatally before any HTTP
exchange, or all five stages before the exchange succeeded. -/
theorem main_cases (w : World) (confFile : GoString) :
    endsBeforeRequest (main w confFile) ∨
    ∃ data cfg u req, w.readFile confFile = .ok data ∧ w.unmarshal data = .ok cfg ∧
      (IPv4 w.net cfg.Interface).err = none ∧
      updateURL cfg.Hostname (IPv4 w.net cfg.Interface).ip = .ok u ∧
      updateRequest cfg (URL.String u) = .ok req := by
  cases h1 : w.readFile confFile with
  | error e =>
    left
    rw [main_of_readFile_error w confFile e h1]
    exact fatal_endsBeforeRequest _ _ (by simp [Event.isHttpDo])
  | ok data =>
    cases h2 : w.unmarshal data with
    | error e =>
      left
      rw [main_of_unmarshal_error w confFile data e h1 h2]
      exact fatal_endsBeforeRequest _ _ (by simp [Event.isHttpDo])
    | ok cfg =>
      cases h3 : (IPv4 w.net cfg.Interface).err with
      | some e =>
        left
        rw [main_of_IPv4_error w confFile data cfg e h1 h2 h3]
        exact fatal_endsBeforeRequest _ _ (by simp [Event.isHttpDo])
      | none =>
        cases h4 : updateURL cfg.Hostname (IPv4 w.net cfg.Interface).ip with
        | error e =>
          left
          rw [main_of_updateURL_error w confFile data cfg e h1 h2 h3 h4]
          exact fatal_endsBeforeRequest _ _ (by simp [Event.isHttpDo])
        | ok u =>
          cases h5 : updateRequest cfg (URL.String u) with
          | error e =>
            left
            rw [main_of_updateRequest_error w confFile data cfg u e h1 h2 h3 h4 h5]
            exact fatal_endsBeforeRequest _ _ (by simp [Event.isHttpDo])
          | ok req => exact Or.inr ⟨data, cfg, u, req, rfl, h2, h3, h4, h5⟩

/-- A run with an HTTP exchange among its effects passed all five stages
before it, and the request exchanged is the one built from the
configuration. -/
theorem main_httpDo_inv (w : World) (confFile : GoString) (req : Request)
    (h : Event.httpDo req ∈ (main w confFile).events) :
    ∃ data cfg u, w.readFile confFile = .ok data ∧ w.unmarshal data = .ok cfg ∧
      (IPv4 w.net cfg.Interface).err = none ∧
      updateURL cfg.Hostname (IPv4 w.net cfg.Interface).ip = .ok u ∧
      updateRequest cfg (URL.String u) = .ok req := by
  rcases main_cases w confFile with hend | ⟨data, cfg, u, req2, h1, h2, h3, h4, h5⟩
  · exact absurd h (hend.2.2 req)
  · have hm := main_of_request w confFile data cfg u req2 h1 h2 h3 h4 h5
    rw [hm] at h
    have hreq : req = req2 := by
      cases hd : w.httpDo req2 with
      | error e =>
        rw [hd] at h
        simp [fatal] at h
        exact h
      | ok resp =>
        rw [hd] at h
        by_cases hc : resp.StatusCode = 200
        · simp [hc] at h
          exact h
        · simp [hc, fatal] at h
          exact h
    exact ⟨data, cfg, u, h1, h2, h3, h4, hreq ▸ h5⟩

/-- The run of scenario A, for any answer of the provider. -/
theorem main_sampleWorld (answer : Except LibError Response) :
    main (sampleWorld answer) (str "/etc/noip/noip.json") =
      match answer with
      | .error e =>
        fatal [.readFile (str "/etc/noip/noip.json"), .resolve (str "eth0"),
          .httpDo sampleRequest] (.err (.lib e))
      | .ok resp =>
        if resp.StatusCode ≠ 200 then
          fatal [.readFile (str "/etc/noip/noip.json"), .resolve (str "eth0"),
            .httpDo sampleRequest] (.response resp.Status)
        else
          ⟨[.readFile (str "/etc/noip/noip.json"), .resolve (str "eth0"),
            .httpDo sampleRequest], 0⟩ := by
  have h3a : IPv4 (envWith [Addr.ipNet [203, 0, 113, 5] [255, 255, 255, 0]]) (str "eth0")
      = ⟨str "203.0.113.5", none, 1⟩ := by decide
  have h3 : IPv4 (sampleWorld answer).net sampleConfig.Interface
      = ⟨str "203.0.113.5", none, 1⟩ := h3a
  have h4 := updateURL_eq (str "h.example.com") (str "203.0.113.5")
  have h5 : updateRequest sampleConfig (URL.String ⟨str "https", [], none,
      str "dynupdate.no-ip.com", str "/nic/update", [], false, false,
      str "hostname=" ++ QueryEscape (str "h.example.com") ++ str "&myip=" ++
        QueryEscape (str "203.0.113.5"), [], []⟩) = .ok sampleRequest := by decide
  exact main_of_request (sampleWorld answer) (str "/etc/noip/noip.json") sampleJSON sampleConfig
    _ sampleRequest rfl rfl (by rw [h3]) (by rw [h3]; exact h4) h5

/-! ### Basic authentication -/

theorem decodeStd_encodeStd (n : Nat) (h : n < 64) : decodeStd (encodeStd n) = some n := by
  have hall : ∀ k : Fin 64, decodeStd (encodeStd k.val) = some k.val := by decide
  exact hall ⟨n, h⟩

theorem encodeStd_ne (n : Nat) (h : n < 64) :
    encodeStd n ≠ ch '=' ∧ encodeStd n ≠ byte 10 ∧ encodeStd n ≠ byte 13 := by
  have hall : ∀ k : Fin 64,
      encodeStd k.val ≠ ch '=' ∧ encodeStd k.val ≠ byte 10 ∧ encodeStd k.val ≠ byte 13 := by
    decide
  exact hall ⟨n, h⟩

theorem byte_eq_of_val (n : Nat) (a : Byte) (h : n = a.val) : byte n = a := by
  apply Fin.ext
  simp only [byte, h]
  exact Nat.mod_eq_of_lt a.isLt

/-- Block-wise decoding undoes `base64Encode`. -/
theorem base64DecodeBlocks_encode (l : List Byte) :
    base64DecodeBlocks (base64Encode l) = some l := by
  induction l using base64Encode.induct with
  | case1 => rfl
  | case2 a =>
    have ha := a.isLt
    simp only [base64Encode, base64DecodeBlocks,
      decodeStd_encodeStd _ (Nat.mod_lt _ (by decide : 0 < 64)), if_true, and_self]
    rw [byte_eq_of_val _ a (by omega)]
  | case3 a b =>
    have ha := a.isLt
    have hb := b.isLt
    simp only [base64Encode, base64DecodeBlocks,
      decodeStd_encodeStd _ (Nat.mod_lt _ (by decide : 0 < 64)), if_true,
      (encodeStd_ne _ (Nat.mod_lt _ (by decide : 0 < 64))).1, if_false]
    rw [byte_eq_of_val _ a (by omega), byte_eq_of_val _ b (by omega)]
  | case4 a b c rest ih =>
    have ha := a.isLt
    have hb := b.isLt
    have hc := c.isLt
    simp only [base64Encode, base64DecodeBlocks,
      decodeStd_encodeStd _ (Nat.mod_lt _ (by decide : 0 < 64)),
      (encodeStd_ne _ (Nat.mod_lt _ (by decide : 0 < 64))).1, if_false, ih, Option.map_some']
    rw [byte_eq_of_val _ a (by omega), byte_eq_of_val _ b (by omega),
      byte_eq_of_val _ c (by omega)]

theorem base64Encode_no_newline (l : List Byte) :
    ∀ x ∈ base64Encode l, x ≠ byte 10 ∧ x ≠ byte 13 := by
  have hpad : ch '=' ≠ byte 10 ∧ ch '=' ≠ byte 13 := by decide
  have henc : ∀ n, encodeStd (n % 64) ≠ byte 10 ∧ encodeStd (n % 64) ≠ byte 13 :=
    fun n => (encodeStd_ne _ (Nat.mod_lt _ (by decide : 0 < 64))).2
  induction l using base64Encode.induct with
  | case1 => intro x hx; cases hx
  | case2 a =>
    intro x hx
    simp only [base64Encode, List.mem_cons, List.mem_singleton, List.not_mem_nil, or_false] at hx
    rcases hx with rfl | rfl | rfl | rfl
    · exact henc _
    · exact henc _
    · exact hpad
    · exact hpad
  | case3 a b =>
    intro x hx
    simp only [base64Encode, List.mem_cons, List.mem_singleton, List.not_mem_nil, or_false] at hx
    rcases hx with rfl | rfl | rfl | rfl
    · exact henc _
    · exact henc _
    · exact henc _
    · exact hpad
  | case4 a b c rest ih =>
    intro x hx
    simp only [base64Encode, List.mem_cons] at hx
    rcases hx with rfl | rfl | rfl | rfl | hx
    · exact henc _
    · exact henc _
    · exact henc _
    · exact henc _
    · exact ih x hx

/-- Decoding undoes `base64.StdEncoding.EncodeToString`. -/
theorem base64Decode_encode (l : List Byte) : base64Decode (base64Encode l) = some l := by
  have hf : (base64Encode l).filter (fun c => c ≠ ch '\n' ∧ c ≠ ch '\r') = base64Encode l := by
    rw [List.filter_eq_self]
    intro x hx
    have h := base64Encode_no_newline l x hx
    have e1 : ch '\n' = byte 10 := by decide
    have e2 : ch '\r' = byte 13 := by decide
    rw [e1, e2]
    simpa using h
  rw [base64Decode, hf, base64DecodeBlocks_encode]

theorem Values_get_put_same (v : Values) (k : GoString) (vs : List GoString) :
    Values.get (Values.put v k vs) k = vs := by
  induction v with
  | nil => simp [Values.put, Values.get]
  | cons p rest ih =>
    obtain ⟨k2, old⟩ := p
    by_cases hk : k2 = k
    · simp [Values.put, Values.get, hk]
    · simp [Values.put, Values.get, hk, ih]

theorem Values_get_put_ne (v : Values) (k k2 : GoString) (vs : List GoString) (h : k ≠ k2) :
    Values.get (Values.put v k vs) k2 = Values.get v k2 := by
  induction v with
  | nil => simp [Values.put, Values.get, h]
  | cons p rest ih =>
    obtain ⟨k3, old⟩ := p
    by_cases hk : k3 = k
    · subst hk
      simp [Values.put, Values.get, h]
    · by_cases hk2 : k3 = k2
      · subst hk2
        simp [Values.put, Values.get, hk]
      · simp [Values.put, Values.get, hk, hk2, ih]

/-- The `Authorization` header of a request built by lines 85-90. -/
theorem updateRequest_authorization (cfg : Config) (url : GoString) (req : Request)
    (h : updateRequest cfg url = .ok req) :
    Values.get req.Header (str "Authorization")
      = [str "Basic " ++ base64Encode (cfg.Username ++ str ":" ++ cfg.Password)] := by
  unfold updateRequest at h
  cases hn : NewRequest (str "GET") url with
  | error e => rw [hn] at h; cases h
  | ok r0 =>
    rw [hn] at h
    simp only [Except.ok.injEq] at h
    subst h
    have c1 : CanonicalMIMEHeaderKey (str "Authorization") = str "Authorization" := by decide
    have c2 : CanonicalMIMEHeaderKey (str "User-Agent") = str "User-Agent" := by decide
    have hne : str "User-Agent" ≠ str "Authorization" := by decide
    simp only [Request.SetBasicAuth, Header.Set, c1, c2, basicAuth]
    rw [Values_get_put_ne _ _ _ _ hne, Values_get_put_same]

theorem split_at_unique (p : Event → Bool) (l1 l2 pre post : List Event) (c x : Event)
    (h : l1 ++ c :: l2 = pre ++ x :: post) (hl1 : ∀ e ∈ l1, p e = false)
    (hl2 : ∀ e ∈ l2, p e = false) (hx : p x = true) : pre = l1 ∧ x = c ∧ post = l2 := by
  induction l1 generalizing pre with
  | nil =>
    cases pre with
    | nil =>
      simp only [List.nil_append, List.cons.injEq] at h
      exact ⟨rfl, h.1.symm, h.2.symm⟩
    | cons a pre2 =>
      simp only [List.nil_append, List.cons_append, List.cons.injEq] at h
      have hmem : x ∈ l2 := by rw [h.2]; simp
      rw [hl2 x hmem] at hx
      cases hx
  | cons a l1b ih =>
    cases pre with
    | nil =>
      simp only [List.nil_append, List.cons_append, List.cons.injEq] at h
      have ha := hl1 a (List.mem_cons_self _ _)
      rw [h.1, hx] at ha
      cases ha
    | cons b pre2 =>
      simp only [List.cons_append, List.cons.injEq] at h
      obtain ⟨h1, h2, h3⟩ := ih pre2 h.2 (fun e he => hl1 e (List.mem_cons_of_mem _ he))
      exact ⟨by rw [h.1, h1], h2, h3⟩

theorem countP_isHttpDo_of_ends (r : Run) (h : endsBeforeRequest r) :
    r.events.countP Event.isHttpDo = 0 := by
  rw [List.countP_eq_zero]
  intro ev hev hp
  cases ev with
  | httpDo req => exact h.2.2 req hev
  | readFile path => cases hp
  | resolve name => cases hp
  | logFatal line => cases hp

/-! ### The request URL on the wire -/

theorem escapeByte_printable (c : Byte) :
    ∀ x ∈ escapeByte .encodeQueryComponent c, (x.val < 32 || x.val == 0x7f) = false := by
  have hall : ∀ c : Byte, (escapeByte .encodeQueryComponent c).all
      (fun x => !(x.val < 32 || x.val == 0x7f)) = true := by decide
  intro x hx
  have h1 := List.all_eq_true.mp (hall c) x hx
  simpa using h1

theorem QueryEscape_printable (s : GoString) :
    ∀ x ∈ QueryEscape s, (x.val < 32 || x.val == 0x7f) = false := by
  intro x hx
  rw [QueryEscape_eq, List.mem_flatMap] at hx
  obtain ⟨c, -, hxc⟩ := hx
  exact escapeByte_printable c x hxc

theorem getSchemeLoop_letters (raw pre rest : GoString) (i : Nat)
    (hpre : ∀ c ∈ pre, (97 ≤ c.val ∧ c.val ≤ 122) ∨ (65 ≤ c.val ∧ c.val ≤ 90))
    (hi : 0 < i + pre.length) :
    getSchemeLoop raw (pre ++ ch ':' :: rest) i = .ok (raw.take (i + pre.length), rest) := by
  induction pre generalizing i with
  | nil =>
    have h0 : i ≠ 0 := by
      intro h
      rw [h] at hi
      exact absurd hi (by decide)
    simp only [List.nil_append, getSchemeLoop, List.length_nil, Nat.add_zero]
    rw [if_neg (by decide), if_neg (by decide), if_pos trivial, if_neg h0]
  | cons c pre2 ih =>
    have hc := hpre c (List.mem_cons_self _ _)
    simp only [List.cons_append, getSchemeLoop, List.append_eq, List.length_cons]
    rw [if_pos hc, ih (i + 1) (fun d hd => hpre d (List.mem_cons_of_mem _ hd)) (by omega)]
    congr 3
    omega

theorem hasSuffixStr_question (a q : GoString) (hq : q ≠ []) (hqm : ch '?' ∉ q) :
    hasSuffixStr (a ++ ch '?' :: q) (str "?") = false := by
  rw [Bool.eq_false_iff]
  intro h
  have e : str "?" = [ch '?'] := by decide
  rw [hasSuffixStr, e, List.isSuffixOf_iff_suffix] at h
  obtain ⟨t, ht⟩ := h
  have hl := congrArg List.getLast? ht
  rw [List.getLast?_append, List.getLast?_append] at hl
  simp only [List.getLast?_singleton, Option.or_some] at hl
  have hq2 : (ch '?' :: q).getLast? = q.getLast? := by
    cases q with
    | nil => exact absurd rfl hq
    | cons x xs => rfl
  rw [hq2] at hl
  cases hg : q.getLast? with
  | none =>
    rw [List.getLast?_eq_none_iff] at hg
    exact hq hg
  | some y =>
    rw [hg] at hl
    simp only [Option.or_some, Option.some.injEq] at hl
    have hy : y ∈ q := List.mem_of_getLast?_eq_some hg
    rw [← hl] at hy
    exact hqm hy

/-- Parsing the text of the parsed base URL with a query `q` that has no
control byte, no `#` and no `?` gives the same URL back. -/
theorem Parse_base_with_query (q : GoString) (hq : q ≠ [])
    (hctl : ∀ x ∈ q, (x.val < 32 || x.val == 0x7f) = false)
    (hhash : ch '#' ∉ q) (hqm : ch '?' ∉ q) :
    Parse (updateBaseURL ++ str "?" ++ q) = .ok ⟨str "https", [], none,
      str "dynupdate.no-ip.com", str "/nic/update", [], false, false, q, [], []⟩ := by
  have hcut : cut (ch '#') (updateBaseURL ++ str "?" ++ q)
      = (updateBaseURL ++ str "?" ++ q, [], false) := by
    apply cut_of_not_mem
    intro hm
    rcases List.mem_append.mp hm with h1 | h1
    · exact absurd h1 (by decide)
    · exact hhash h1
  have hc : stringContainsCTLByte (updateBaseURL ++ str "?" ++ q) = false := by
    simp only [stringContainsCTLByte, List.any_append, Bool.or_eq_false_iff]
    refine ⟨by decide, ?_⟩
    rw [List.any_eq_false]
    intro x hx
    rw [hctl x hx]
    simp
  have hne : updateBaseURL ++ str "?" ++ q ≠ str "*" := by
    have e : updateBaseURL ++ str "?" = ch 'h' :: (updateBaseURL ++ str "?").tail := by decide
    have e2 : str "*" = [ch '*'] := by decide
    rw [e, e2]
    intro h
    simp only [List.cons_append, List.cons.injEq] at h
    exact absurd h.1 (by decide)
  have hs : getScheme (updateBaseURL ++ str "?" ++ q)
      = .ok (str "https", str "//dynupdate.no-ip.com/nic/update" ++ ch '?' :: q) := by
    have e : updateBaseURL ++ str "?" ++ q
        = str "https:" ++ (str "//dynupdate.no-ip.com/nic/update" ++ ch '?' :: q) := by
      have e1 : updateBaseURL ++ str "?"
          = str "https:" ++ (str "//dynupdate.no-ip.com/nic/update" ++ [ch '?']) := by decide
      rw [e1]
      simp only [List.append_assoc, List.cons_append, List.nil_append]
    rw [e]
    have e2 : str "https:" = str "https" ++ [ch ':'] := by decide
    rw [e2, getScheme]
    simp only [List.append_assoc, List.singleton_append]
    rw [getSchemeLoop_letters _ _ _ 0 (by decide) (by decide)]
    have l5 : 0 + (str "https").length = (str "https").length := Nat.zero_add _
    rw [l5, List.take_left]
  have hfq : hasSuffixStr (str "//dynupdate.no-ip.com/nic/update" ++ ch '?' :: q) (str "?")
      = false := hasSuffixStr_question _ q hq hqm
  have hcq : cut (ch '?') (str "//dynupdate.no-ip.com/nic/update" ++ ch '?' :: q)
      = (str "//dynupdate.no-ip.com/nic/update", q, true) :=
    cut_append_sep _ _ _ (by decide)
  have hp : parse (updateBaseURL ++ str "?" ++ q) false = .ok ⟨str "https", [], none,
      str "dynupdate.no-ip.com", str "/nic/update", [], false, false, q, [], []⟩ := by
    unfold parse
    rw [if_neg (by rw [hc]; decide), if_neg (by simp), if_neg hne]
    have f1 : toLower (str "https") = str "https" := by decide
    have f2 : hasPrefixStr (str "//dynupdate.no-ip.com/nic/update") (str "/") = true := by decide
    have f3 : hasPrefixStr (str "//dynupdate.no-ip.com/nic/update") (str "//") = true := by
      decide
    have f4 : str "https" ≠ [] := by decide
    have f5 : ((str "//dynupdate.no-ip.com/nic/update").drop 2).indexOf? (ch '/') = some 19 := by
      decide
    have f6 : ((str "//dynupdate.no-ip.com/nic/update").drop 2).drop 19 = str "/nic/update" := by
      decide
    have f7 : ((str "//dynupdate.no-ip.com/nic/update").drop 2).take 19
        = str "dynupdate.no-ip.com" := by decide
    have f8 : parseAuthority (str "dynupdate.no-ip.com")
        = .ok (none, str "dynupdate.no-ip.com") := by decide
    have f9 : unescape (str "/nic/update") .encodePath = .ok (str "/nic/update") := by decide
    have f10 : escape (str "/nic/update") .encodePath = str "/nic/update" := by decide
    simp only [hs, hfq, hcq, Bool.false_and, Bool.false_eq_true, if_false, f1, f2, f3, f4, f5, f6,
      f7, f8, f9, f10, URL.setPath, URL.zero, Bool.not_true, false_and, ne_eq, not_false_eq_true,
      true_or, and_self, true_and, if_true]
  rw [Parse]
  simp only [hcut, hp, if_true]

theorem encoded_query_props (h ip : GoString) :
    str "hostname=" ++ QueryEscape h ++ str "&myip=" ++ QueryEscape ip ≠ [] ∧
    (∀ x ∈ str "hostname=" ++ QueryEscape h ++ str "&myip=" ++ QueryEscape ip,
      (x.val < 32 || x.val == 0x7f) = false) ∧
    ch '#' ∉ str "hostname=" ++ QueryEscape h ++ str "&myip=" ++ QueryEscape ip ∧
    ch '?' ∉ str "hostname=" ++ QueryEscape h ++ str "&myip=" ++ QueryEscape ip := by
  have k1 : ∀ x ∈ str "hostname=", (x.val < 32 || x.val == 0x7f) = false := by decide
  have k2 : ∀ x ∈ str "&myip=", (x.val < 32 || x.val == 0x7f) = false := by decide
  refine ⟨by simp [show str "hostname=" ≠ [] by decide], ?_, ?_, ?_⟩
  · intro x hx
    simp only [List.mem_append] at hx
    rcases hx with ((hx | hx) | hx) | hx
    · exact k1 x hx
    · exact QueryEscape_printable h x hx
    · exact k2 x hx
    · exact QueryEscape_printable ip x hx
  · intro hx
    simp only [List.mem_append] at hx
    rcases hx with ((hx | hx) | hx) | hx
    · exact absurd hx (by decide)
    · exact QueryEscape_not_mem h _ (by decide) hx
    · exact absurd hx (by decide)
    · exact QueryEscape_not_mem ip _ (by decide) hx
  · intro hx
    simp only [List.mem_append] at hx
    rcases hx with ((hx | hx) | hx) | hx
    · exact absurd hx (by decide)
    · exact QueryEscape_not_mem h _ (by decide) hx
    · exact absurd hx (by decide)
    · exact QueryEscape_not_mem ip _ (by decide) hx

/-- Parsing the text of the built URL gives the built URL back. -/
theorem Parse_String_updateURL (h ip : GoString) (u : URL) (hu : updateURL h ip = .ok u) :
    Parse (URL.String u) = .ok u := by
  rw [updateURL_eq] at hu
  simp only [Except.ok.injEq] at hu
  subst hu
  obtain ⟨p1, p2, p3, p4⟩ := encoded_query_props h ip
  rw [String_base_with_query _ p1, Parse_base_with_query _ p1 p2 p3 p4]

/-- Lines 85-90 never fail on the text of a built URL: the request is a GET
for that URL, with the host of the base URL and the two headers. -/
theorem updateRequest_eq (cfg : Config) (h ip : GoString) (u : URL)
    (hu : updateURL h ip = .ok u) :
    updateRequest cfg (URL.String u) = .ok ⟨str "GET", u, str "HTTP/1.1",
      [(str "Authorization", [str "Basic " ++ basicAuth cfg.Username cfg.Password]),
        (str "User-Agent", [userAgent])], none, str "dynupdate.no-ip.com"⟩ := by
  have hp := Parse_String_updateURL h ip u hu
  rw [updateURL_eq] at hu
  simp only [Except.ok.injEq] at hu
  subst hu
  have m1 : (str "GET" = []) = False := by simp [show str "GET" ≠ [] by decide]
  have m2 : validMethod (str "GET") = true := by decide
  have m3 : removeEmptyPort (str "dynupdate.no-ip.com") = str "dynupdate.no-ip.com" := by decide
  have c1 : CanonicalMIMEHeaderKey (str "Authorization") = str "Authorization" := by decide
  have c2 : CanonicalMIMEHeaderKey (str "User-Agent") = str "User-Agent" := by decide
  have hne : str "Authorization" ≠ str "User-Agent" := by decide
  simp only [updateRequest, NewRequest, m1, if_false, m2, Bool.not_true, Bool.false_eq_true, hp,
    m3, Request.SetBasicAuth, Header.Set, c1, c2, Values.put, hne]

/-- A run in which the configuration is read and decoded and the address is
resolved reaches the HTTP exchange, with the request built from them. -/
theorem main_reaches_exchange (w : World) (confFile : GoString) (data : List Byte)
    (cfg : Config) (h1 : w.readFile confFile = .ok data) (h2 : w.unmarshal data = .ok cfg)
    (h3 : (IPv4 w.net cfg.Interface).err = none) :
    ∃ u, updateURL cfg.Hostname (IPv4 w.net cfg.Interface).ip = .ok u ∧
      Event.httpDo ⟨str "GET", u, str "HTTP/1.1",
        [(str "Authorization", [str "Basic " ++ basicAuth cfg.Username cfg.Password]),
          (str "User-Agent", [userAgent])], none, str "dynupdate.no-ip.com"⟩
        ∈ (main w confFile).events := by
  have h4 := updateURL_eq cfg.Hostname (IPv4 w.net cfg.Interface).ip
  have h5 := updateRequest_eq cfg _ _ _ h4
  refine ⟨_, h4, ?_⟩
  rw [main_of_request w confFile data cfg _ _ h1 h2 h3 h4 h5]
  cases hd : w.httpDo _ with
  | error e => simp [fatal]
  | ok resp =>
    by_cases hc : resp.StatusCode = 200
    · simp [hc]
    · simp [hc, fatal]

/-! ### The client -/

/-- A turn of the loop of `do` asks for another request only when fewer
than ten have been sent. -/
theorem hop_inr_length (c : Client) (reqs : List Request) (req : Request) (strip : Bool)
    (next : Request × Bool) (h : Client.hop c reqs req strip = .inr next) :
    (reqs ++ [req]).length < 10 := by
  by_contra hlt
  have hge : (reqs ++ [req]).length ≥ 10 := by omega
  unfold Client.hop at h
  simp only [hge, if_true] at h
  split at h
  · cases h
  · split_ifs at h
    split at h <;> cases h

theorem doLoop_sent_length (c : Client) (n : Nat) :
    ∀ (reqs : List Request) (req : Request) (strip : Bool), reqs.length < 10 →
      1 ≤ (Client.doLoop c n reqs req strip).sent.length ∧
      (Client.doLoop c n reqs req strip).sent.length ≤ 10 := by
  induction n with
  | zero =>
    intro reqs req strip hl
    simp only [Client.doLoop]
    split <;> simp only [List.length_append, List.length_singleton] <;> omega
  | succ n ih =>
    intro reqs req strip hl
    simp only [Client.doLoop]
    split
    · simp only [List.length_append, List.length_singleton]
      omega
    · rename_i next hnext
      have h10 := hop_inr_length c reqs req strip next hnext
      exact ih _ _ _ h10

/-- One call of `Do` sends at least one request and at most ten. -/
theorem Do_sent_length (c : Client) (req : Request) :
    1 ≤ (Client.Do c req).sent.length ∧ (Client.Do c req).sent.length ≤ 10 :=
  doLoop_sent_length c 10 [] req false (by decide)

/-- The bound `Do` gives its loop is enough: any bound that leaves room
for ten requests gives the same result. -/
theorem doLoop_bound (c : Client) (n1 : Nat) :
    ∀ (n2 : Nat) (reqs : List Request) (req : Request) (strip : Bool),
      10 ≤ reqs.length + 1 + n1 → 10 ≤ reqs.length + 1 + n2 →
      Client.doLoop c n1 reqs req strip = Client.doLoop c n2 reqs req strip := by
  induction n1 with
  | zero =>
    intro n2 reqs req strip h1 _
    cases hh : Client.hop c reqs req strip with
    | inl o => cases n2 <;> simp only [Client.doLoop, hh]
    | inr next =>
      have := hop_inr_length c reqs req strip next hh
      simp only [List.length_append, List.length_singleton] at this
      omega
  | succ n1 ih =>
    intro n2 reqs req strip h1 h2
    cases hh : Client.hop c reqs req strip with
    | inl o => cases n2 <;> simp only [Client.doLoop, hh]
    | inr next =>
      have hl := hop_inr_length c reqs req strip next hh
      simp only [List.length_append, List.length_singleton] at hl
      cases n2 with
      | zero => omega
      | succ n2 =>
        simp only [Client.doLoop, hh]
        exact ih n2 _ _ _ (by simp only [List.length_append, List.length_singleton]; omega)
          (by simp only [List.length_append, List.length_singleton]; omega)

theorem requestsSent_of_ends (c : Client) (r : Run) (h : endsBeforeRequest r) :
    requestsSent c r = [] := by
  unfold requestsSent
  rw [List.flatMap_eq_nil_iff]
  intro ev hev
  cases ev with
  | httpDo req => exact absurd hev (h.2.2 req)
  | readFile path => rfl
  | resolve name => rfl
  | logFatal line => rfl

/-- In any run over a client, the requests sent are those of at most one
call of `Do`: none at all, or between one and ten. -/
theorem requestsSent_main_length (w : World) (c : Client) (confFile : GoString) :
    (requestsSent c (main (World.withClient w c) confFile)).length ≤ 10 := by
  rcases main_cases (World.withClient w c) confFile with
    hend | ⟨data, cfg, u, req, h1, h2, h3, h4, h5⟩
  · rw [requestsSent_of_ends c _ hend]
    exact Nat.zero_le 10
  · rw [main_of_request (World.withClient w c) confFile data cfg u req h1 h2 h3 h4 h5]
    have hb := (Do_sent_length c req).2
    cases hd : (World.withClient w c).httpDo req with
    | error e => simpa [requestsSent, fatal] using hb
    | ok resp =>
      by_cases hc : resp.StatusCode = 200
      · simpa [requestsSent, hc] using hb
      · simpa [requestsSent, hc, fatal] using hb

/-- The run of scenario A over the redirecting provider. -/
theorem main_redirectWorld :
    Client.Do redirectingClient sampleRequest
      = ⟨[sampleRequest, redirectedRequest], .returned (sampleResponse 200 "200 OK" "good")⟩ ∧
    main redirectWorld (str "/etc/noip/noip.json")
      = ⟨[.readFile (str "/etc/noip/noip.json"), .resolve (str "eth0"),
          .httpDo sampleRequest], 0⟩ := by
  have hdo : Client.Do redirectingClient sampleRequest
      = ⟨[sampleRequest, redirectedRequest],
          .returned (sampleResponse 200 "200 OK" "good")⟩ := by decide
  have h3a : IPv4 (envWith [Addr.ipNet [203, 0, 113, 5] [255, 255, 255, 0]]) (str "eth0")
      = ⟨str "203.0.113.5", none, 1⟩ := by decide
  have h3 : IPv4 redirectWorld.net sampleConfig.Interface
      = ⟨str "203.0.113.5", none, 1⟩ := h3a
  have h4 := updateURL_eq (str "h.example.com") (str "203.0.113.5")
  have h5 : updateRequest sampleConfig (URL.String ⟨str "https", [], none,
      str "dynupdate.no-ip.com", str "/nic/update", [], false, false,
      str "hostname=" ++ QueryEscape (str "h.example.com") ++ str "&myip=" ++
        QueryEscape (str "203.0.113.5"), [], []⟩) = .ok sampleRequest := by decide
  have hm := main_of_request redirectWorld (str "/etc/noip/noip.json") sampleJSON sampleConfig
    _ sampleRequest rfl rfl (by rw [h3]) (by rw [h3]; exact h4) h5
  have hd : redirectWorld.httpDo sampleRequest = .ok (sampleResponse 200 "200 OK" "good") := by
    show (Client.Do redirectingClient sampleRequest).outcome.value = _
    rw [hdo]
    rfl
  refine ⟨hdo, ?_⟩
  rw [hm, hd]
  decide

/-! ## The claims -/

/-! ### C1 -/

/-- C1: when the interface lookup and the address enumeration succeed and
some entry of the address list is a `*net.IPNet` whose IP has a 4-byte form,
`IPv4` succeeds and returns the string form of the IP of the entry with the
smallest such index `k`: every entry before `k` is a non-qualifying one, the
list is used in the order given, and the loop stops after `k + 1`
iterations. -/
theorem IPv4_returns_first_qualifying (env : NetEnv) (name : GoString) (i : Interface)
    (addrs : List Addr) (hi : env.interfaceByName name = .ok i)
    (ha : env.addrs i = .ok addrs) (hq : ∃ a ∈ addrs, qualifies a = true) :
    ∃ (k : Nat) (ip : IP) (mask : List Byte),
      addrs[k]? = some (Addr.ipNet ip mask) ∧ (IP.To4 ip).isSome = true ∧
      (∀ j, j < k → ∀ a, addrs[j]? = some a → qualifies a = false) ∧
      IPv4 env name = ⟨IP.String ip, none, k + 1⟩ := by
  exact IPv4_of_exists_qualifying env name i addrs hi ha hq

/-- Witness for C1: on `eth0` with a non-IP-network entry, a pure IPv6
address and then `192.0.2.1` and `10.0.0.1`, the third entry is returned. -/
theorem IPv4_returns_first_qualifying_witness :
    (∃ (k : Nat) (ip : IP) (mask : List Byte),
      sampleAddrs[k]? = some (Addr.ipNet ip mask) ∧ (IP.To4 ip).isSome = true ∧
      (∀ j, j < k → ∀ a, sampleAddrs[j]? = some a → qualifies a = false) ∧
      IPv4 (envWith sampleAddrs) (str "eth0") = ⟨IP.String ip, none, k + 1⟩) ∧
    IPv4 (envWith sampleAddrs) (str "eth0") = ⟨str "192.0.2.1", none, 3⟩ :=
  ⟨IPv4_returns_first_qualifying (envWith sampleAddrs) (str "eth0") eth0 sampleAddrs
    rfl rfl ⟨Addr.ipNet [192, 0, 2, 1] [255, 255, 255, 0], by decide, by decide⟩,
   by decide⟩

/-! ### C2 -/

/-- C2, as stated, fails: an interface whose only address is the 16-byte
IPv4-in-IPv6 address `::ffff:192.0.2.1` does not give the no-IPv4 error;
that entry is the one returned, as `192.0.2.1`. -/
theorem IPv4_returns_IPv4in6 :
    isIPv4in6 mapped192 = true ∧
    IPv4 (envWith [Addr.ipNet mapped192 mask96]) (str "eth0") = ⟨str "192.0.2.1", none, 1⟩ := by
  decide

/-- C2, amended: `IPv4` skips every pure IPv6 address (16 bytes, not IPv4
expressed in IPv6). A list made up only of such entries gives the no-IPv4
error after a full scan; whenever `IPv4` succeeds, the entry it stopped at is
not a pure IPv6 address; and an address expressed as IPv4-in-IPv6 is not
skipped: as the first qualifying entry it is returned, in dotted decimal. -/
theorem IPv4_skips_pure_IPv6 (env : NetEnv) (name : GoString) (i : Interface)
    (addrs : List Addr) (hi : env.interfaceByName name = .ok i)
    (ha : env.addrs i = .ok addrs) :
    ((∀ a ∈ addrs, ∃ ip mask, a = Addr.ipNet ip mask ∧ isPureIPv6 ip = true) →
      IPv4 env name = ⟨[], some (.noIPv4Found name), addrs.length⟩) ∧
    ((IPv4 env name).err = none →
      ∃ ip mask, addrs[(IPv4 env name).iterations - 1]? = some (Addr.ipNet ip mask) ∧
        isPureIPv6 ip = false ∧ (IPv4 env name).ip = IP.String ip) ∧
    (∀ pre ip mask post, addrs = pre ++ Addr.ipNet ip mask :: post →
      (∀ a ∈ pre, qualifies a = false) → isIPv4in6 ip = true →
      IPv4 env name = ⟨dotted (ip.drop 12), none, pre.length + 1⟩) := by
  refine ⟨?_, ?_, ?_⟩
  · intro h
    have hall : ∀ a ∈ addrs, qualifies a = false := by
      intro a hmem
      obtain ⟨ip, mask, rfl, hp⟩ := h a hmem
      simp [qualifies, To4_of_isPureIPv6 ip hp]
    have hs := scanAddrs_none_of_forall addrs 0 hall
    rw [Nat.zero_add] at hs
    exact IPv4_eq_of_scan_none env name i addrs _ hi ha hs
  · intro herr
    by_cases hq : ∃ a ∈ addrs, qualifies a = true
    · obtain ⟨k, ip, mask, hk, hip, -, hres⟩ :=
        IPv4_of_exists_qualifying env name i addrs hi ha hq
      refine ⟨ip, mask, ?_, ?_, ?_⟩
      · rw [hres]; simpa using hk
      · cases hp : isPureIPv6 ip with
        | false => rfl
        | true => rw [To4_of_isPureIPv6 ip hp] at hip; cases hip
      · rw [hres]
    · have hall : ∀ a ∈ addrs, qualifies a = false := by
        intro a hmem
        by_contra hne
        exact hq ⟨a, hmem, by simpa using hne⟩
      have hs := scanAddrs_none_of_forall addrs 0 hall
      rw [IPv4_eq_of_scan_none env name i addrs _ hi ha hs] at herr
      cases herr
  · intro pre ip mask post hsplit hpre hip
    have h4 : (IP.To4 ip).isSome = true := by rw [To4_of_isIPv4in6 ip hip]; rfl
    have hs := scanAddrs_first pre post ip mask 0 hpre h4
    rw [Nat.zero_add, ← hsplit, String_of_isIPv4in6 ip hip] at hs
    exact IPv4_eq_of_scan_some env name i _ _ _ hi ha hs

/-- Witness for the amended C2: `eth0` with `fe80::1` alone gives the
no-IPv4 error, and with `fe80::1` followed by `::ffff:192.0.2.1` gives
`192.0.2.1`, found at the second entry. -/
theorem IPv4_skips_pure_IPv6_witness :
    IPv4 (envWith [Addr.ipNet linkLocal6 mask64]) (str "eth0")
      = ⟨[], some (.noIPv4Found (str "eth0")), 1⟩ ∧
    IPv4 (envWith [Addr.ipNet linkLocal6 mask64, Addr.ipNet mapped192 mask96]) (str "eth0")
      = ⟨str "192.0.2.1", none, 2⟩ :=
  ⟨(IPv4_skips_pure_IPv6 (envWith [Addr.ipNet linkLocal6 mask64]) (str "eth0") eth0 _ rfl
      rfl).1 (by
        intro a ha
        rw [List.mem_singleton] at ha
        exact ⟨linkLocal6, mask64, ha, by decide⟩),
   (IPv4_skips_pure_IPv6 (envWith [Addr.ipNet linkLocal6 mask64, Addr.ipNet mapped192 mask96])
      (str "eth0") eth0 _ rfl rfl).2.2 [Addr.ipNet linkLocal6 mask64] mapped192 mask96 [] rfl
      (by decide) (by decide)⟩

/-! ### C3 -/

/-- C3: `IPv4` fails with the no-IPv4-found error exactly when the interface
lookup and the address enumeration succeed and no entry of the address list
qualifies; then the returned string is empty, the error is the one made from
the interface name (its text is the fixed text followed by the quoted name),
and the loop ran over the whole list. -/
theorem IPv4_noIPv4Found_iff (env : NetEnv) (name : GoString) :
    ((∃ n, (IPv4 env name).err = some (.noIPv4Found n)) ↔
      ∃ i addrs, env.interfaceByName name = .ok i ∧ env.addrs i = .ok addrs ∧
        ∀ a ∈ addrs, qualifies a = false) ∧
    (∀ i addrs, env.interfaceByName name = .ok i → env.addrs i = .ok addrs →
      (∀ a ∈ addrs, qualifies a = false) →
      IPv4 env name = ⟨[], some (.noIPv4Found name), addrs.length⟩ ∧
      ∀ quote, Error.message quote (.noIPv4Found name)
        = str "no IPv4 found for interface: " ++ quote name) := by
  have key : ∀ i addrs, env.interfaceByName name = .ok i → env.addrs i = .ok addrs →
      (∀ a ∈ addrs, qualifies a = false) →
      IPv4 env name = ⟨[], some (.noIPv4Found name), addrs.length⟩ := by
    intro i addrs hi ha hall
    have hs := scanAddrs_none_of_forall addrs 0 hall
    rw [Nat.zero_add] at hs
    exact IPv4_eq_of_scan_none env name i addrs _ hi ha hs
  refine ⟨⟨?_, ?_⟩, fun i addrs hi ha hall => ⟨key i addrs hi ha hall, fun _ => rfl⟩⟩
  · rintro ⟨n, hn⟩
    cases hi : env.interfaceByName name with
    | error e => simp [IPv4, hi] at hn
    | ok i =>
      cases ha : env.addrs i with
      | error e => simp [IPv4, hi, ha] at hn
      | ok addrs =>
        refine ⟨i, addrs, rfl, ha, ?_⟩
        by_contra hne
        have hq : ∃ a ∈ addrs, qualifies a = true := by
          by_contra hno
          exact hne (fun a hmem => by
            by_contra hqa
            exact hno ⟨a, hmem, by simpa using hqa⟩)
        obtain ⟨k, ip, mask, -, -, -, hres⟩ :=
          IPv4_of_exists_qualifying env name i addrs hi ha hq
        rw [hres] at hn
        cases hn
  · rintro ⟨i, addrs, hi, ha, hall⟩
    exact ⟨name, by rw [key i addrs hi ha hall]⟩

/-- Witness for C3: `eth0` with only a non-IP-network entry and a pure IPv6
address, and `eth0` with no address at all. -/
theorem IPv4_noIPv4Found_iff_witness :
    (IPv4 (envWith [Addr.other (str "ip") (str "fe80::1"), Addr.ipNet linkLocal6 mask64])
        (str "eth0") = ⟨[], some (.noIPv4Found (str "eth0")), 2⟩ ∧
      ∀ quote, Error.message quote (.noIPv4Found (str "eth0"))
        = str "no IPv4 found for interface: " ++ quote (str "eth0")) ∧
    (∃ n, (IPv4 (envWith []) (str "eth0")).err = some (.noIPv4Found n)) :=
  ⟨(IPv4_noIPv4Found_iff
      (envWith [Addr.other (str "ip") (str "fe80::1"), Addr.ipNet linkLocal6 mask64])
      (str "eth0")).2 eth0 _ rfl rfl (by decide),
   ⟨str "eth0", by decide⟩⟩

/-! ### C4 -/

/-- C4: for every hostname value `h` and every IP string, the URL built by
lines 76-83 exists; parsing its query (`u.Query()`) and reading `hostname`
gives exactly `h`, bound as a single value, and the query parses without
error, whatever bytes (commas included) `h` holds. Parsing the text of the
URL gives the same URL, so the same holds for the query read from the
text. -/
theorem updateURL_hostname_roundtrip (h ip : GoString) :
    ∃ u, updateURL h ip = .ok u ∧
      Values.get (URL.Query u) (str "hostname") = [h] ∧
      Values.Get (URL.Query u) (str "hostname") = h ∧
      (ParseQuery u.RawQuery).2 = none ∧
      Parse (URL.String u) = .ok u := by
  refine ⟨_, updateURL_eq h ip, ?_, ?_, ?_, Parse_String_updateURL h ip _ (updateURL_eq h ip)⟩
  · simp only [URL.Query, ParseQuery_encoded]
    simp [Values.get]
  · simp only [URL.Query, ParseQuery_encoded]
    simp [Values.Get, Values.get]
  · simp only [ParseQuery_encoded]

/-! ### C5 -/

/-- C5: for a hostname and an IP string made only of bytes that query
escaping leaves as they are, the text of the built URL is the base URL, then
`?hostname=`, the hostname, `&myip=` and the IP; its query holds the two
parameters `hostname` and `myip`, in this order, once each, and nothing
else. -/
theorem updateURL_text_of_unreserved (h ip : GoString)
    (hh : ∀ c ∈ h, isUnreserved c = true) (hip : ∀ c ∈ ip, isUnreserved c = true) :
    ∃ u, updateURL h ip = .ok u ∧
      URL.String u
        = str "https://dynupdate.no-ip.com/nic/update?hostname=" ++ h ++ str "&myip=" ++ ip ∧
      URL.Query u = [(str "hostname", [h]), (str "myip", [ip])] := by
  refine ⟨_, updateURL_eq h ip, ?_, ?_⟩
  · have hq : str "hostname=" ++ QueryEscape h ++ str "&myip=" ++ QueryEscape ip ≠ [] := by
      simp [show str "hostname=" ≠ [] by decide]
    rw [String_base_with_query _ hq, QueryEscape_of_unreserved h hh,
      QueryEscape_of_unreserved ip hip]
    have a : str "https://dynupdate.no-ip.com/nic/update?hostname="
        = updateBaseURL ++ str "?" ++ str "hostname=" := by decide
    rw [a]
    simp only [List.append_assoc]
  · simp only [URL.Query, ParseQuery_encoded]

/-- Witness for C5: `h.example.com` and `203.0.113.5`. -/
theorem updateURL_text_of_unreserved_witness :
    ∃ u, updateURL (str "h.example.com") (str "203.0.113.5") = .ok u ∧
      URL.String u
        = str "https://dynupdate.no-ip.com/nic/update?hostname=" ++ str "h.example.com" ++
            str "&myip=" ++ str "203.0.113.5" ∧
      URL.Query u = [(str "hostname", [str "h.example.com"]), (str "myip", [str "203.0.113.5"])] :=
  updateURL_text_of_unreserved (str "h.example.com") (str "203.0.113.5") (by decide) (by decide)

/-! ### C6 -/

/-- C6: once the HTTP client has returned a response, the run succeeds
(exit status 0) exactly when the status code is 200. With any other code the
run ends with exit status 1 and its last effect is the fatal log line made
from the status text of the response; with 200 the run ends without a log
line. The body plays no part: replacing the body of every response leaves
the run as it is. -/
theorem main_status_check (w : World) (confFile : GoString) (req : Request) (resp : Response)
    (h : Event.httpDo req ∈ (main w confFile).events) (hr : w.httpDo req = .ok resp) :
    ((main w confFile).exitCode = 0 ↔ resp.StatusCode = 200) ∧
    (resp.StatusCode ≠ 200 →
      (main w confFile).exitCode = 1 ∧
      (main w confFile).events.getLast? = some (Event.logFatal (LogLine.response resp.Status)) ∧
      ∀ quote, LogLine.text quote (LogLine.response resp.Status)
        = str "error in response: " ++ quote resp.Status ++ str "\n") ∧
    (resp.StatusCode = 200 →
      (main w confFile).exitCode = 0 ∧
      ∀ ev ∈ (main w confFile).events, ∀ l, ev ≠ Event.logFatal l) ∧
    (∀ body, main (World.withBody w body) confFile = main w confFile) := by
  obtain ⟨data, cfg, u, h1, h2, h3, h4, h5⟩ := main_httpDo_inv w confFile req h
  have hm := main_of_request w confFile data cfg u req h1 h2 h3 h4 h5
  rw [hr] at hm
  refine ⟨?_, ?_, ?_, ?_⟩
  · by_cases hc : resp.StatusCode = 200
    · simp [hm, hc]
    · simp [hm, hc, fatal]
  · intro hc
    refine ⟨by simp [hm, hc, fatal], by simp [hm, hc, fatal], fun _ => rfl⟩
  · intro hc
    refine ⟨by simp [hm, hc], ?_⟩
    intro ev hev l
    simp only [hm, hc, ne_eq, not_true_eq_false, if_false, List.mem_cons, List.mem_singleton,
      List.not_mem_nil, or_false] at hev
    rcases hev with rfl | rfl | rfl <;> simp
  · intro body
    have hm2 := main_of_request (World.withBody w body) confFile data cfg u req h1 h2 h3 h4 h5
    have hd : (World.withBody w body).httpDo req = .ok { resp with Body := body } := by
      simp only [World.withBody, hr]
    rw [hd] at hm2
    rw [hm, hm2]

/-- Witness for C6: scenario B, the provider answers 401; also an answer
204, and an answer 200 whose body reports `badauth`. -/
theorem main_status_check_witness :
    main (sampleWorld (.ok (sampleResponse 401 "401 Unauthorized" "badauth")))
        (str "/etc/noip/noip.json")
      = ⟨[.readFile (str "/etc/noip/noip.json"), .resolve (str "eth0"), .httpDo sampleRequest,
          .logFatal (.response (str "401 Unauthorized"))], 1⟩ ∧
    main (sampleWorld (.ok (sampleResponse 204 "204 No Content" "")))
        (str "/etc/noip/noip.json")
      = ⟨[.readFile (str "/etc/noip/noip.json"), .resolve (str "eth0"), .httpDo sampleRequest,
          .logFatal (.response (str "204 No Content"))], 1⟩ ∧
    main (sampleWorld (.ok (sampleResponse 200 "200 OK" "badauth")))
        (str "/etc/noip/noip.json")
      = ⟨[.readFile (str "/etc/noip/noip.json"), .resolve (str "eth0"), .httpDo sampleRequest],
          0⟩ ∧
    ((main (sampleWorld (.ok (sampleResponse 401 "401 Unauthorized" "badauth")))
        (str "/etc/noip/noip.json")).exitCode = 0 ↔
      (sampleResponse 401 "401 Unauthorized" "badauth").StatusCode = 200) :=
  ⟨by rw [main_sampleWorld]; decide, by rw [main_sampleWorld]; decide,
   by rw [main_sampleWorld]; decide,
   (main_status_check (sampleWorld (.ok (sampleResponse 401 "401 Unauthorized" "badauth")))
      (str "/etc/noip/noip.json") sampleRequest
      (sampleResponse 401 "401 Unauthorized" "badauth")
      (by rw [main_sampleWorld]; decide) rfl).1⟩

/-! ### C7 -/

/-- C7: `IPv4` hands back the error of a failed interface lookup, and the
error of a failed address enumeration, with an empty string and without
running the loop at all; neither failure is reported as the no-IPv4-found
error. -/
theorem IPv4_propagates_lookup_errors (env : NetEnv) (name : GoString) :
    (∀ e, env.interfaceByName name = .error e →
      IPv4 env name = ⟨[], some (.lib e), 0⟩ ∧
      ∀ n, (IPv4 env name).err ≠ some (.noIPv4Found n)) ∧
    (∀ i e, env.interfaceByName name = .ok i → env.addrs i = .error e →
      IPv4 env name = ⟨[], some (.lib e), 0⟩ ∧
      ∀ n, (IPv4 env name).err ≠ some (.noIPv4Found n)) := by
  refine ⟨fun e he => ?_, fun i e hi he => ?_⟩
  · have h : IPv4 env name = ⟨[], some (.lib e), 0⟩ := by simp [IPv4, he]
    exact ⟨h, fun n hn => by rw [h] at hn; cases hn⟩
  · have h : IPv4 env name = ⟨[], some (.lib e), 0⟩ := by simp [IPv4, hi, he]
    exact ⟨h, fun n hn => by rw [h] at hn; cases hn⟩

/-- Witness for C7: a name that is not in the table, and `eth0` in a table
whose address enumeration fails. -/
theorem IPv4_propagates_lookup_errors_witness :
    IPv4 (envWith sampleAddrs) (str "wlan9")
      = ⟨[], some (.lib (.os (str "route ip+net: no such network interface"))), 0⟩ ∧
    IPv4 envAddrsFail (str "eth0")
      = ⟨[], some (.lib (.os (str "route ip+net: netlinkrib: too many open files"))), 0⟩ :=
  ⟨((IPv4_propagates_lookup_errors (envWith sampleAddrs) (str "wlan9")).1 _ rfl).1,
   ((IPv4_propagates_lookup_errors envAddrsFail (str "eth0")).2 eth0 _ rfl rfl).1⟩

/-! ### C8 -/

/-- C8, as stated, fails in its last part: in scenario A over a provider
that answers the update request with `302 Found` and a `Location` on the
same host, the run makes one call of `http.DefaultClient.Do` and exits with
status 0, and two HTTP requests are sent: the update request, and the
request the client makes for the new location. -/
theorem main_sends_two_requests :
    main redirectWorld (str "/etc/noip/noip.json")
      = ⟨[.readFile (str "/etc/noip/noip.json"), .resolve (str "eth0"),
          .httpDo sampleRequest], 0⟩ ∧
    (main redirectWorld (str "/etc/noip/noip.json")).events.countP Event.isHttpDo = 1 ∧
    requestsSent redirectingClient (main redirectWorld (str "/etc/noip/noip.json"))
      = [sampleRequest, redirectedRequest] ∧
    (requestsSent redirectingClient (main redirectWorld (str "/etc/noip/noip.json"))).length
      = 2 := by
  have hm := main_redirectWorld.2
  have hdo := main_redirectWorld.1
  have hs : requestsSent redirectingClient (main redirectWorld (str "/etc/noip/noip.json"))
      = [sampleRequest, redirectedRequest] := by
    rw [hm]
    simp only [requestsSent, List.flatMap_cons, List.flatMap_nil, hdo, List.nil_append,
      List.append_nil]
  refine ⟨hm, ?_, hs, ?_⟩
  · rw [hm]
    rfl
  · rw [hs]
    rfl

/-- C8, amended: the runner is a sequence of stages with the call of the
HTTP client last. A failure of any earlier stage (reading the file, decoding
it, resolving the address, building the URL, building the request) ends the
run with exit status 1 and a fatal log line, without any call of the client,
so that no HTTP request is sent. No run has more than one call of
`http.DefaultClient.Do`; where there is one, every effect before it is
another kind of effect and nothing but the fatal log line can follow it.
Within that one call the client sends the request built by the program and,
when it follows redirects, further requests: at most ten in all. -/
theorem main_request_is_last (w : World) (confFile : GoString) :
    (∀ e, w.readFile confFile = .error e → endsBeforeRequest (main w confFile)) ∧
    (∀ data e, w.readFile confFile = .ok data → w.unmarshal data = .error e →
      endsBeforeRequest (main w confFile)) ∧
    (∀ data cfg e, w.readFile confFile = .ok data → w.unmarshal data = .ok cfg →
      (IPv4 w.net cfg.Interface).err = some e → endsBeforeRequest (main w confFile)) ∧
    (∀ data cfg e, w.readFile confFile = .ok data → w.unmarshal data = .ok cfg →
      (IPv4 w.net cfg.Interface).err = none →
      updateURL cfg.Hostname (IPv4 w.net cfg.Interface).ip = .error e →
      endsBeforeRequest (main w confFile)) ∧
    (∀ data cfg u e, w.readFile confFile = .ok data → w.unmarshal data = .ok cfg →
      (IPv4 w.net cfg.Interface).err = none →
      updateURL cfg.Hostname (IPv4 w.net cfg.Interface).ip = .ok u →
      updateRequest cfg (URL.String u) = .error e → endsBeforeRequest (main w confFile)) ∧
    (main w confFile).events.countP Event.isHttpDo ≤ 1 ∧
    (∀ pre req post, (main w confFile).events = pre ++ Event.httpDo req :: post →
      (∀ ev ∈ pre, Event.isHttpDo ev = false) ∧
      (post = [] ∨ ∃ l, post = [Event.logFatal l])) ∧
    (∀ c : Client, endsBeforeRequest (main (World.withClient w c) confFile) →
      requestsSent c (main (World.withClient w c) confFile) = []) ∧
    (∀ c : Client, (requestsSent c (main (World.withClient w c) confFile)).length ≤ 10) := by
  refine ⟨?_, ?_, ?_, ?_, ?_, ?_, ?_, ?_, ?_⟩
  · intro e h1
    rw [main_of_readFile_error w confFile e h1]
    exact fatal_endsBeforeRequest _ _ (by simp [Event.isHttpDo])
  · intro data e h1 h2
    rw [main_of_unmarshal_error w confFile data e h1 h2]
    exact fatal_endsBeforeRequest _ _ (by simp [Event.isHttpDo])
  · intro data cfg e h1 h2 h3
    rw [main_of_IPv4_error w confFile data cfg e h1 h2 h3]
    exact fatal_endsBeforeRequest _ _ (by simp [Event.isHttpDo])
  · intro data cfg e h1 h2 h3 h4
    rw [main_of_updateURL_error w confFile data cfg e h1 h2 h3 h4]
    exact fatal_endsBeforeRequest _ _ (by simp [Event.isHttpDo])
  · intro data cfg u e h1 h2 h3 h4 h5
    rw [main_of_updateRequest_error w confFile data cfg u e h1 h2 h3 h4 h5]
    exact fatal_endsBeforeRequest _ _ (by simp [Event.isHttpDo])
  · rcases main_cases w confFile with hend | ⟨data, cfg, u, req, h1, h2, h3, h4, h5⟩
    · rw [countP_isHttpDo_of_ends _ hend]
      exact Nat.zero_le 1
    · rw [main_of_request w confFile data cfg u req h1 h2 h3 h4 h5]
      cases hd : w.httpDo req with
      | error e => simp [fatal, List.countP_cons, Event.isHttpDo]
      | ok resp =>
        by_cases hc : resp.StatusCode = 200
        · simp [hc, List.countP_cons, Event.isHttpDo]
        · simp [hc, fatal, List.countP_cons, Event.isHttpDo]
  · intro pre req post hsplit
    rcases main_cases w confFile with hend | ⟨data, cfg, u, req2, h1, h2, h3, h4, h5⟩
    · exact absurd (by rw [hsplit]; simp) (hend.2.2 req)
    · rw [main_of_request w confFile data cfg u req2 h1 h2 h3 h4 h5] at hsplit
      have hpre : ∀ ev ∈ [Event.readFile confFile, Event.resolve cfg.Interface],
          Event.isHttpDo ev = false := by simp [Event.isHttpDo]
      cases hd : w.httpDo req2 with
      | error e =>
        rw [hd] at hsplit
        have hs : [Event.readFile confFile, Event.resolve cfg.Interface] ++
            Event.httpDo req2 :: [Event.logFatal (.err (.lib e))]
            = pre ++ Event.httpDo req :: post := by simpa [fatal] using hsplit
        obtain ⟨e1, -, e3⟩ := split_at_unique Event.isHttpDo _ _ _ _ _ _ hs hpre
          (by simp [Event.isHttpDo]) rfl
        exact ⟨e1 ▸ hpre, Or.inr ⟨_, e3⟩⟩
      | ok resp =>
        rw [hd] at hsplit
        by_cases hc : resp.StatusCode = 200
        · have hs : [Event.readFile confFile, Event.resolve cfg.Interface] ++
              Event.httpDo req2 :: [] = pre ++ Event.httpDo req :: post := by
            simpa [hc] using hsplit
          obtain ⟨e1, -, e3⟩ := split_at_unique Event.isHttpDo _ _ _ _ _ _ hs hpre
            (by simp) rfl
          exact ⟨e1 ▸ hpre, Or.inl e3⟩
        · have hs : [Event.readFile confFile, Event.resolve cfg.Interface] ++
              Event.httpDo req2 :: [Event.logFatal (.response resp.Status)]
              = pre ++ Event.httpDo req :: post := by simpa [hc, fatal] using hsplit
          obtain ⟨e1, -, e3⟩ := split_at_unique Event.isHttpDo _ _ _ _ _ _ hs hpre
            (by simp [Event.isHttpDo]) rfl
          exact ⟨e1 ▸ hpre, Or.inr ⟨_, e3⟩⟩
  · intro c hend
    exact requestsSent_of_ends c _ hend
  · intro c
    exact requestsSent_main_length w c confFile

/-- Witness for the amended C8: scenario C, no configuration file at the
given path. -/
theorem main_request_is_last_witness :
    endsBeforeRequest
      (main (sampleWorld (.ok (sampleResponse 200 "200 OK" "good"))) (str "/tmp/missing.json")) ∧
    main (sampleWorld (.ok (sampleResponse 200 "200 OK" "good"))) (str "/tmp/missing.json")
      = ⟨[.readFile (str "/tmp/missing.json"),
          .logFatal (.err (.lib (.os (str "open: no such file or directory"))))], 1⟩ ∧
    (requestsSent redirectingClient (main redirectWorld (str "/tmp/missing.json"))).length
      ≤ 10 :=
  ⟨(main_request_is_last (sampleWorld (.ok (sampleResponse 200 "200 OK" "good")))
      (str "/tmp/missing.json")).1 (.os (str "open: no such file or directory")) rfl,
   by decide,
   (main_request_is_last (sampleWorld (.error (.os (str "unused"))))
      (str "/tmp/missing.json")).2.2.2.2.2.2.2.2 redirectingClient⟩

/-! ### C9 -/

/-- C9: a run in which the configuration is read and decoded (giving
`cfg`) and the address is resolved gives the HTTP client a request, and the
request of any run carries an `Authorization` header with the single value
`Basic `, followed by the standard base64 encoding of
`cfg.Username ++ ":" ++ cfg.Password`; decoding what follows `Basic ` gives
`username:password` back. -/
theorem main_sends_basic_auth (w : World) (confFile : GoString) :
    (∀ data cfg, w.readFile confFile = .ok data → w.unmarshal data = .ok cfg →
      (IPv4 w.net cfg.Interface).err = none →
      ∃ req, Event.httpDo req ∈ (main w confFile).events) ∧
    (∀ req, Event.httpDo req ∈ (main w confFile).events →
      ∃ data cfg, w.readFile confFile = .ok data ∧ w.unmarshal data = .ok cfg ∧
        Values.get req.Header (str "Authorization")
          = [str "Basic " ++ base64Encode (cfg.Username ++ str ":" ++ cfg.Password)] ∧
        Header.Get req.Header (str "Authorization")
          = str "Basic " ++ base64Encode (cfg.Username ++ str ":" ++ cfg.Password) ∧
        base64Decode ((Header.Get req.Header (str "Authorization")).drop 6)
          = some (cfg.Username ++ str ":" ++ cfg.Password)) := by
  refine ⟨?_, ?_⟩
  · intro data cfg h1 h2 h3
    obtain ⟨u, -, hmem⟩ := main_reaches_exchange w confFile data cfg h1 h2 h3
    exact ⟨_, hmem⟩
  · intro req h
    obtain ⟨data, cfg, u, h1, h2, -, -, h5⟩ := main_httpDo_inv w confFile req h
    have ha := updateRequest_authorization cfg _ req h5
    have c1 : CanonicalMIMEHeaderKey (str "Authorization") = str "Authorization" := by decide
    have hg : Header.Get req.Header (str "Authorization")
        = str "Basic " ++ base64Encode (cfg.Username ++ str ":" ++ cfg.Password) := by
      simp only [Header.Get, Values.Get, c1, ha]
    refine ⟨data, cfg, h1, h2, ha, hg, ?_⟩
    have hd : (str "Basic " ++ base64Encode (cfg.Username ++ str ":" ++ cfg.Password)).drop 6
        = base64Encode (cfg.Username ++ str ":" ++ cfg.Password) := by
      have hl : (str "Basic ").length = 6 := by decide
      rw [← hl, List.drop_left]
    rw [hg, hd, base64Decode_encode]

/-- Witness for C9: in scenario A (`u` and `p`) the header is
`Basic dTpw`. -/
theorem main_sends_basic_auth_witness :
    (∃ data cfg,
      (sampleWorld (.ok (sampleResponse 200 "200 OK" "good"))).readFile
        (str "/etc/noip/noip.json") = .ok data ∧
      (sampleWorld (.ok (sampleResponse 200 "200 OK" "good"))).unmarshal data = .ok cfg ∧
      Values.get sampleRequest.Header (str "Authorization")
        = [str "Basic " ++ base64Encode (cfg.Username ++ str ":" ++ cfg.Password)] ∧
      Header.Get sampleRequest.Header (str "Authorization")
        = str "Basic " ++ base64Encode (cfg.Username ++ str ":" ++ cfg.Password) ∧
      base64Decode ((Header.Get sampleRequest.Header (str "Authorization")).drop 6)
        = some (cfg.Username ++ str ":" ++ cfg.Password)) ∧
    Header.Get sampleRequest.Header (str "Authorization") = str "Basic dTpw" ∧
    base64Decode (str "dTpw") = some (str "u:p") :=
  ⟨(main_sends_basic_auth (sampleWorld (.ok (sampleResponse 200 "200 OK" "good")))
      (str "/etc/noip/noip.json")).2 sampleRequest
      (by rw [main_sampleWorld]; decide),
   by decide, by decide⟩

/-! ### C10 -/

/-- C10, as stated, fails for the space: a space in the hostname is
written as `+`, not percent-encoded; the raw query for the hostname
`my host` holds no `%` at all. -/
theorem updateURL_space_not_percent_encoded :
    escapeByte .encodeQueryComponent (ch ' ') = str "+" ∧
    escapeByte .encodeQueryComponent (ch ' ') ≠ str "%20" ∧
    (∃ u, updateURL (str "my host") (str "203.0.113.5") = .ok u ∧
      u.RawQuery = str "hostname=my+host&myip=203.0.113.5" ∧ ch '%' ∉ u.RawQuery) := by
  refine ⟨by decide, by decide, _, updateURL_eq _ _, by decide, by decide⟩

/-- C10, amended: the raw query of the built URL is `hostname=`, the
escaped hostname, `&myip=` and the escaped IP, where escaping works byte by
byte and writes `%2C` for a comma, `%26` for `&`, `%3D` for `=` and `+` for
a space. So no comma, `&`, `=` or space of the hostname or IP value is left
in it: the raw query holds no comma and no space, exactly one `&` and
exactly two `=`, and splits into exactly the two parameters `hostname` and
`myip`, with the values given. -/
theorem updateURL_rawQuery_separators (h ip : GoString) :
    ∃ u, updateURL h ip = .ok u ∧
      u.RawQuery = str "hostname=" ++ h.flatMap (escapeByte .encodeQueryComponent) ++
        str "&myip=" ++ ip.flatMap (escapeByte .encodeQueryComponent) ∧
      escapeByte .encodeQueryComponent (ch ',') = str "%2C" ∧
      escapeByte .encodeQueryComponent (ch '&') = str "%26" ∧
      escapeByte .encodeQueryComponent (ch '=') = str "%3D" ∧
      escapeByte .encodeQueryComponent (ch ' ') = str "+" ∧
      (∀ c, ∀ x ∈ escapeByte .encodeQueryComponent c,
        x ≠ ch ',' ∧ x ≠ ch '&' ∧ x ≠ ch '=' ∧ x ≠ ch ' ') ∧
      u.RawQuery.count (ch ',') = 0 ∧ u.RawQuery.count (ch ' ') = 0 ∧
      u.RawQuery.count (ch '&') = 1 ∧ u.RawQuery.count (ch '=') = 2 ∧
      ParseQuery u.RawQuery = ([(str "hostname", [h]), (str "myip", [ip])], none) := by
  refine ⟨_, updateURL_eq h ip, ?_, by decide, by decide, by decide, by decide, ?_, ?_, ?_, ?_,
    ?_, ParseQuery_encoded h ip⟩
  · simp only [QueryEscape_eq]
  · intro c x hx
    have hno := escapeByte_no_separator c x hx
    refine ⟨?_, ?_, ?_, ?_⟩ <;> rintro rfl <;> exact hno (by decide)
  · simp only [List.count_append, count_eq_zero_of_QueryEscape h _ (show ch ',' ∈ _ by decide),
      count_eq_zero_of_QueryEscape ip _ (show ch ',' ∈ _ by decide)]
    decide
  · simp only [List.count_append, count_eq_zero_of_QueryEscape h _ (show ch ' ' ∈ _ by decide),
      count_eq_zero_of_QueryEscape ip _ (show ch ' ' ∈ _ by decide)]
    decide
  · simp only [List.count_append, count_eq_zero_of_QueryEscape h _ (show ch '&' ∈ _ by decide),
      count_eq_zero_of_QueryEscape ip _ (show ch '&' ∈ _ by decide)]
    decide
  · simp only [List.count_append, count_eq_zero_of_QueryEscape h _ (show ch '=' ∈ _ by decide),
      count_eq_zero_of_QueryEscape ip _ (show ch '=' ∈ _ by decide)]
    decide

end Noip
